import Mathlib

/-!
Verification of the offline-first synchronization core of the note-taking
application: the local durable store and mutation outbox
(src/lib/offline-storage.ts), the synchronization engine
(src/lib/sync-manager.ts) and the repository hook (src/hooks/useOfflineNotes.ts).

Modelling conventions:
* ISO-8601 timestamp strings (`new Date().toISOString()`, `Date.now()`) are
  modelled as natural numbers (milliseconds since the epoch); comparison of
  `Date` objects coincides with numeric comparison of these values.
* The IndexedDB object stores (`notes`, `notebooks`, `sync_queue`) are keyed
  stores: each holds at most one record per primary key.  They are modelled as
  lists, with `put` removing any record carrying the key and appending the new
  record.  `getAll` returns records in ascending key order; the engine regroups
  the queue snapshot by table and operation kind anyway, and within one
  (table, kind, entity) group ascending key order coincides with enqueue order
  (the key ends in the 13-digit enqueue millisecond count), so the list order
  used here is faithful for every property proved below.
* The remote backend is, per the system design, a plain record store reachable
  through select/insert/update/delete by id; rows carry the entity attributes.
  An insert violating the primary key fails; an update or delete matching zero
  rows succeeds without effect.
* Domain fields of notes (title, content, notebook_id, is_favorite) and of
  notebooks (name, description, color) are carried verbatim; both tables share
  one record type, mirroring the sync code which is generic in the table.
-/

namespace BrightScribe

/-- The `sync_status` tag on stored entities (offline-storage.ts schema). -/
inductive SyncStatus where
  | synced
  | pending
  | conflict
deriving DecidableEq

/-- The two entity tables of the local store and of the remote store. -/
inductive Table where
  | notes
  | notebooks
deriving DecidableEq

/-- Outbox operation kinds (the `type` field of a sync_queue record). -/
inductive OpType where
  | create
  | update
  | delete
deriving DecidableEq

/-- Domain fields of a note or of a notebook (offline-storage.ts schema). -/
inductive Fields where
  | note (title : String) (content : Option String) (notebook_id : Option String)
      (is_favorite : Bool)
  | notebook (name : String) (description : Option String) (color : String)
deriving DecidableEq

/-- An entity record as stored locally or remotely: id, domain fields, owner,
timestamps, sync bookkeeping (offline-storage.ts schema; the remote rows carry
the same attributes per the external-interface model). -/
structure Entity where
  id : String
  fields : Fields
  user_id : String
  created_at : Nat
  updated_at : Nat
  sync_status : SyncStatus
  local_updated_at : Option Nat
deriving DecidableEq

/-- Keyed-store `get` by primary key. -/
def findRec : List Entity → String → Option Entity
  | [], _ => none
  | e :: l, i => if e.id = i then some e else findRec l i

/-- Keyed-store `put` (upsert): at most one record per key survives. -/
def putRec (l : List Entity) (v : Entity) : List Entity :=
  l.filter (fun e => ¬ e.id = v.id) ++ [v]

/-- Keyed-store `delete` by primary key (no-op when absent). -/
def delRec (l : List Entity) (i : String) : List Entity :=
  l.filter (fun e => ¬ e.id = i)

/-- Structured form of the sync_queue key
`table-type-dataid-ms` built by `addToSyncQueue`
(the hyphen-joined string is injective in these four components for the ids in
use, so the structured form is used as the key). -/
structure QKey where
  table : Table
  kind : OpType
  entity_id : String
  ms : Nat
deriving DecidableEq

/-- Payload of a queue entry: a full entity snapshot for create/update, a bare
id object for delete (`data: any` in the source). -/
inductive QData where
  | ent (e : Entity)
  | idOnly (i : String)
deriving DecidableEq

/-- `data.id` — defined on both payload shapes. -/
def QData.dataId : QData → String
  | .ent e => e.id
  | .idOnly i => i

/-- A sync_queue record: `{ id, type, table, data, timestamp }`. -/
structure QueueItem where
  id : QKey
  kind : OpType
  table : Table
  data : QData
  timestamp : Nat
deriving DecidableEq

/-- The local durable store: the three IndexedDB object stores. -/
structure LocalDB where
  notes : List Entity
  notebooks : List Entity
  sync_queue : List QueueItem
deriving DecidableEq

/-- Table-indexed read of an entity collection. -/
def LocalDB.coll (db : LocalDB) : Table → List Entity
  | .notes => db.notes
  | .notebooks => db.notebooks

/-- Table-indexed replacement of an entity collection. -/
def LocalDB.setColl (db : LocalDB) : Table → List Entity → LocalDB
  | .notes, l => { db with notes := l }
  | .notebooks, l => { db with notebooks := l }

/-- Keyed `put` into the sync_queue store. -/
def putQueue (q : List QueueItem) (v : QueueItem) : List QueueItem :=
  q.filter (fun i => ¬ i.id = v.id) ++ [v]

namespace OfflineStorage

/-- `addToSyncQueue(table, type, data)`: builds the queue record with the
composite key and puts it (offline-storage.ts). `now` is `Date.now()`. -/
def addToSyncQueue (db : LocalDB) (t : Table) (ty : OpType) (d : QData)
    (now : Nat) : LocalDB :=
  let queueItem : QueueItem :=
    { id := ⟨t, ty, d.dataId, now⟩, kind := ty, table := t, data := d,
      timestamp := now }
  { db with sync_queue := putQueue db.sync_queue queueItem }

/-- `saveNote` / `saveNotebook`: stamp `local_updated_at`, force
`sync_status: 'pending'`, put the record, enqueue an `update` entry; returns
the stored record (offline-storage.ts). -/
def saveEntity (t : Table) (now : Nat) (n : Entity) (db : LocalDB) :
    Entity × LocalDB :=
  let nd := { n with local_updated_at := some now,
                     sync_status := SyncStatus.pending }
  let db1 := db.setColl t (putRec (db.coll t) nd)
  (nd, addToSyncQueue db1 t OpType.update (QData.ent nd) now)

/-- `createNote` / `createNotebook`: same as save but enqueues a `create`
entry (offline-storage.ts). -/
def createEntity (t : Table) (now : Nat) (n : Entity) (db : LocalDB) :
    Entity × LocalDB :=
  let nd := { n with local_updated_at := some now,
                     sync_status := SyncStatus.pending }
  let db1 := db.setColl t (putRec (db.coll t) nd)
  (nd, addToSyncQueue db1 t OpType.create (QData.ent nd) now)

/-- `deleteNote` / `deleteNotebook`: when the record exists, delete it locally
and enqueue a `delete` entry carrying only the id (offline-storage.ts). -/
def deleteEntity (t : Table) (now : Nat) (i : String) (db : LocalDB) : LocalDB :=
  match findRec (db.coll t) i with
  | some _ =>
      let db1 := db.setColl t (delRec (db.coll t) i)
      addToSyncQueue db1 t OpType.delete (QData.idOnly i) now
  | none => db

/-- `markAsSynced(table, id)`: when the record exists, set
`sync_status = 'synced'`, delete `local_updated_at`, put it back; silently a
no-op when absent (offline-storage.ts). -/
def markAsSynced (t : Table) (i : String) (db : LocalDB) : LocalDB :=
  match findRec (db.coll t) i with
  | some e =>
      db.setColl t (putRec (db.coll t)
        { e with sync_status := SyncStatus.synced, local_updated_at := none })
  | none => db

/-- `removeSyncQueueItem(id)` (offline-storage.ts). -/
def removeSyncQueueItem (k : QKey) (db : LocalDB) : LocalDB :=
  { db with sync_queue := db.sync_queue.filter (fun i => ¬ i.id = k) }

/-- `bulkUpdateFromServer(table, items)`: put every item with
`sync_status: 'synced'` spread over it (offline-storage.ts). -/
def bulkUpdateFromServer (t : Table) (items : List Entity) (db : LocalDB) :
    LocalDB :=
  db.setColl t
    (items.foldl (fun l i => putRec l { i with sync_status := SyncStatus.synced })
      (db.coll t))

/-- `saveNote` (offline-storage.ts). -/
def saveNote (now : Nat) (n : Entity) (db : LocalDB) : Entity × LocalDB :=
  saveEntity Table.notes now n db

/-- `createNote` (offline-storage.ts). -/
def createNote (now : Nat) (n : Entity) (db : LocalDB) : Entity × LocalDB :=
  createEntity Table.notes now n db

/-- `deleteNote` (offline-storage.ts). -/
def deleteNote (now : Nat) (i : String) (db : LocalDB) : LocalDB :=
  deleteEntity Table.notes now i db

/-- The method names the `OfflineStorage` class defines
(offline-storage.ts); JavaScript method dispatch on any other name yields
`undefined` and calling it throws a `TypeError`. -/
def methodNames : List String :=
  ["getAllNotes", "getNote", "saveNote", "createNote", "deleteNote",
   "getAllNotebooks", "getNotebook", "saveNotebook", "createNotebook",
   "deleteNotebook", "addToSyncQueue", "getSyncQueue", "clearSyncQueue",
   "removeSyncQueueItem", "markAsSynced", "bulkUpdateFromServer",
   "getPendingItems"]

/-- Whether the class defines a method of the given name. -/
def hasMethod (m : String) : Bool := methodNames.contains m

end OfflineStorage

/-- The remote record store (the two backend tables the core talks to). -/
structure RemoteDB where
  notes : List Entity
  notebooks : List Entity
deriving DecidableEq

/-- Table-indexed read of a remote table. -/
def RemoteDB.coll (r : RemoteDB) : Table → List Entity
  | .notes => r.notes
  | .notebooks => r.notebooks

/-- Table-indexed replacement of a remote table. -/
def RemoteDB.setColl (r : RemoteDB) : Table → List Entity → RemoteDB
  | .notes, l => { r with notes := l }
  | .notebooks, l => { r with notebooks := l }

/-- Remote `insert`: fails on a primary-key conflict, otherwise appends. -/
def remoteInsert (r : RemoteDB) (t : Table) (e : Entity) :
    Except String RemoteDB :=
  if (findRec (r.coll t) e.id).isSome then Except.error "duplicate key"
  else Except.ok (r.setColl t (r.coll t ++ [e]))

/-- Remote `update(payload).eq('id', id)`: rows matching the id take the
payload's columns (the sync payload carries every column, so the row becomes
the payload); matching zero rows is not an error. -/
def remoteUpdate (r : RemoteDB) (t : Table) (i : String) (payload : Entity) :
    RemoteDB :=
  r.setColl t ((r.coll t).map (fun x => if x.id = i then payload else x))

/-- Remote `delete().eq('id', id)`: never an error, even on zero rows. -/
def remoteDelete (r : RemoteDB) (t : Table) (i : String) : RemoteDB :=
  r.setColl t (delRec (r.coll t) i)

/-- Joint state of the local durable store and the remote store. -/
structure SyncState where
  localdb : LocalDB
  remote : RemoteDB
deriving DecidableEq

namespace SyncManager

/-- The local time used by the drain conflict check:
`new Date(data.local_updated_at || data.updated_at)` (sync-manager.ts). -/
def localTime (e : Entity) : Nat := e.local_updated_at.getD e.updated_at

/-- `processOperation(table, type, data)` (sync-manager.ts): `create` inserts
the payload; `update` fetches the remote row's `updated_at` (a missing row is
tolerated), skips when the remote is strictly newer than the local time, and
otherwise overwrites the row with the payload spread plus a fresh
`updated_at`; `delete` deletes by `data.id`.  A payload shape the storage
layer never produces (an id-only create/update) is treated as a thrown error;
`addToSyncQueue` never builds such an entry. -/
def processOperation (now : Nat) (t : Table) (ty : OpType) (d : QData)
    (r : RemoteDB) : Except String RemoteDB :=
  match ty, d with
  | OpType.create, QData.ent e => remoteInsert r t e
  | OpType.update, QData.ent e =>
      match findRec (r.coll t) e.id with
      | some server =>
          if localTime e < server.updated_at then Except.ok r
          else Except.ok (remoteUpdate r t e.id { e with updated_at := now })
      | none => Except.ok (remoteUpdate r t e.id { e with updated_at := now })
  | OpType.delete, d => Except.ok (remoteDelete r t d.dataId)
  | _, _ => Except.error "malformed queue item"

/-- The grouping key `table-type` of the reduce in `syncToServer`. -/
def qkeyOf (i : QueueItem) : Table × OpType := (i.table, i.kind)

/-- The object keys of the grouped operations, in first-appearance order
(JavaScript object string keys enumerate in insertion order). -/
def groupKeys (l : List QueueItem) : List (Table × OpType) :=
  l.foldl (fun acc i => if qkeyOf i ∈ acc then acc else acc ++ [qkeyOf i]) []

/-- The order in which `syncToServer` visits the queue snapshot: one bucket
per key in first-appearance order, each bucket in snapshot order. -/
def groupedOrder (l : List QueueItem) : List QueueItem :=
  (groupKeys l).flatMap (fun k => l.filter (fun i => qkeyOf i = k))

/-- One iteration of the inner loop of `syncToServer`: try the remote
operation; on success remove the queue entry and mark the entity synced; on
failure record a conflict pair and leave the state alone (sync-manager.ts). -/
def stepItem (now : Nat) (i : QueueItem) (st : SyncState)
    (cs : List (QueueItem × String)) : SyncState × List (QueueItem × String) :=
  match processOperation now i.table i.kind i.data st.remote with
  | Except.ok r2 =>
      ({ localdb := OfflineStorage.markAsSynced i.table i.data.dataId
            (OfflineStorage.removeSyncQueueItem i.id st.localdb),
         remote := r2 }, cs)
  | Except.error msg => (st, cs ++ [(i, msg)])

/-- The inner loops of `syncToServer` over the grouped snapshot. -/
def processItems (now : Nat) :
    List QueueItem → SyncState → List (QueueItem × String) →
    SyncState × List (QueueItem × String)
  | [], st, cs => (st, cs)
  | i :: rest, st, cs =>
      let p := stepItem now i st cs
      processItems now rest p.1 p.2

/-- Result shape of `syncToServer`. -/
structure SyncResult where
  success : Bool
  conflicts : List (QueueItem × String)
deriving DecidableEq

/-- `syncToServer()` (sync-manager.ts): offline returns
`{success: false, conflicts: []}`; otherwise snapshot the queue, group it,
process every item with per-item error capture, and return
`{success: true, conflicts}` (the outer catch is reachable only through local
storage-device failure, which the store model does not produce). -/
def syncToServer (online : Bool) (now : Nat) (st : SyncState) :
    SyncResult × SyncState :=
  if online then
    let p := processItems now (groupedOrder st.localdb.sync_queue) st []
    ({ success := true, conflicts := p.2 }, p.1)
  else ({ success := false, conflicts := [] }, st)

/-- `syncFromServer(userId)` (sync-manager.ts): fetch the caller's remote
notes and notebooks and bulk-write them into the local store. -/
def syncFromServer (online : Bool) (userId : String) (st : SyncState) :
    SyncState :=
  if online then
    let notesRes := st.remote.notes.filter (fun e => e.user_id = userId)
    let nbRes := st.remote.notebooks.filter (fun e => e.user_id = userId)
    let db1 := OfflineStorage.bulkUpdateFromServer Table.notes notesRes st.localdb
    let db2 := OfflineStorage.bulkUpdateFromServer Table.notebooks nbRes db1
    { st with localdb := db2 }
  else st

/-- `performFullSync(userId)` (sync-manager.ts). -/
def performFullSync (online : Bool) (now : Nat) (userId : String)
    (st : SyncState) : SyncResult × SyncState :=
  let r := syncToServer online now st
  (r.1, syncFromServer online userId r.2)

end SyncManager

namespace UseOfflineNotes

/-- `createNote(noteData)` (useOfflineNotes.ts).  `ready` models
`offlineStorage && user` being available; `freshId` is the
`crypto.randomUUID()` value; `now` the creation instant.  The constructed
client object carries no bookkeeping fields; on its remote insert the
`sync_status` column default applies.  When online and the remote insert
succeeds, the returned row is written locally through
`offlineStorage.saveNote({...data, sync_status: 'synced'})`; any remote
failure (and the offline case) falls back to `offlineStorage.createNote`. -/
def createNote (ready online : Bool) (userId : String) (now : Nat)
    (freshId : String) (f : Fields) (st : SyncState) :
    Option Entity × SyncState :=
  if ready then
    let newNote : Entity :=
      { id := freshId, fields := f, user_id := userId, created_at := now,
        updated_at := now, sync_status := SyncStatus.synced,
        local_updated_at := none }
    if online then
      match remoteInsert st.remote Table.notes newNote with
      | Except.ok r2 =>
          let p := OfflineStorage.saveNote now
            { newNote with sync_status := SyncStatus.synced } st.localdb
          (some newNote, { localdb := p.2, remote := r2 })
      | Except.error _ =>
          let p := OfflineStorage.createNote now newNote st.localdb
          (some p.1, { st with localdb := p.2 })
    else
      let p := OfflineStorage.createNote now newNote st.localdb
      (some p.1, { st with localdb := p.2 })
  else (none, st)

/-- `deleteNote(id)` (useOfflineNotes.ts): online, the remote delete (which
never fails on a missing row) runs first, then `offlineStorage.deleteNote`;
offline, only the latter. -/
def deleteNote (ready online : Bool) (now : Nat) (i : String)
    (st : SyncState) : SyncState :=
  if ready then
    if online then
      { localdb := OfflineStorage.deleteNote now i st.localdb,
        remote := remoteDelete st.remote Table.notes i }
    else
      { st with localdb := OfflineStorage.deleteNote now i st.localdb }
  else st

/-- `refreshNote(noteId)` (useOfflineNotes.ts): guards on storage, user and
connectivity; fetches the remote row by id and owner (`.single()` on zero
rows is the error path returning null); then calls
`offlineStorage.updateNoteDirectly(noteData)` — dispatched dynamically on the
`OfflineStorage` instance, so when the class defines no such method the call
throws a `TypeError`, the surrounding catch returns null, and the store is
untouched. -/
def refreshNote (ready online : Bool) (userId noteId : String)
    (st : SyncState) : Option Entity × SyncState :=
  if ready && online then
    match (st.remote.notes.filter
        (fun e => e.id = noteId ∧ e.user_id = userId)).head? with
    | none => (none, st)
    | some data =>
        if OfflineStorage.hasMethod "updateNoteDirectly" then
          -- not reached: the class defines no `updateNoteDirectly`
          (some data, st)
        else (none, st)
  else (none, st)

end UseOfflineNotes

/-- A local-store operation of the `OfflineStorage` surface, tagged with the
instant at which it runs — the alphabet of store histories for the
bookkeeping invariant.  Bulk items come from the remote store, whose schema
carries no `local_updated_at` column (see `bulkWF`). -/
inductive StoreOp where
  | save (t : Table) (now : Nat) (n : Entity)
  | mk_create (t : Table) (now : Nat) (n : Entity)
  | del (t : Table) (now : Nat) (i : String)
  | mark (t : Table) (i : String)
  | bulk (t : Table) (items : List Entity)
deriving DecidableEq

/-- Apply one store operation. -/
def applyOp (db : LocalDB) : StoreOp → LocalDB
  | StoreOp.save t now n => (OfflineStorage.saveEntity t now n db).2
  | StoreOp.mk_create t now n => (OfflineStorage.createEntity t now n db).2
  | StoreOp.del t now i => OfflineStorage.deleteEntity t now i db
  | StoreOp.mark t i => OfflineStorage.markAsSynced t i db
  | StoreOp.bulk t items => OfflineStorage.bulkUpdateFromServer t items db

/-- Run a history of store operations from a given store. -/
def runOps (db : LocalDB) (ops : List StoreOp) : LocalDB :=
  ops.foldl applyOp db

/-- The empty local store. -/
def emptyDB : LocalDB := { notes := [], notebooks := [], sync_queue := [] }

/-- Well-formedness of one operation: items handed to
`bulkUpdateFromServer` are server rows, and the server schema has no
`local_updated_at` column. -/
def opWF : StoreOp → Prop
  | StoreOp.bulk _ items => ∀ i ∈ items, i.local_updated_at = none
  | _ => True

instance : DecidablePred opWF := by
  intro op
  cases op <;> simp only [opWF] <;> infer_instance

/-- The instant of the latest local mutation (save or create) of the given
entity in the given table over a history, if any. -/
def lastMutUpd (op : StoreOp) (lm : Table → String → Option Nat) :
    Table → String → Option Nat :=
  match op with
  | StoreOp.save t now n =>
      fun t2 i => if t2 = t ∧ i = n.id then some now else lm t2 i
  | StoreOp.mk_create t now n =>
      fun t2 i => if t2 = t ∧ i = n.id then some now else lm t2 i
  | _ => lm

/-- The instant of the latest local mutation of entity `i` of table `t`
across the whole history `ops`. -/
def lastMut (ops : List StoreOp) (t : Table) (i : String) : Option Nat :=
  (ops.foldl (fun lm op => lastMutUpd op lm) (fun _ _ => none)) t i

/-! ### Concrete instances used in the closed theorems below -/

/-- A local note pending with a local edit at instant 5. -/
def wNote : Entity :=
  { id := "n1", fields := Fields.note "local" none none false, user_id := "u1",
    created_at := 0, updated_at := 5, sync_status := SyncStatus.pending,
    local_updated_at := some 5 }

/-- A remote row for the same note id with the given `updated_at` stamp and
differing content. -/
def wRemote (ua : Nat) : Entity :=
  { id := "n1", fields := Fields.note "remote" none none false, user_id := "u1",
    created_at := 0, updated_at := ua, sync_status := SyncStatus.synced,
    local_updated_at := none }

/-- The outbox `update` entry for the pending note. -/
def wUpd : QueueItem :=
  { id := ⟨Table.notes, OpType.update, "n1", 5⟩, kind := OpType.update,
    table := Table.notes, data := QData.ent wNote, timestamp := 5 }

/-- Joint state: the pending note, its queued update, one remote row
stamped `ua`. -/
def wState (ua : Nat) : SyncState :=
  { localdb := { notes := [wNote], notebooks := [], sync_queue := [wUpd] },
    remote := { notes := [wRemote ua], notebooks := [] } }

/-- A second local pending note with a fresh id. -/
def wNote2 : Entity :=
  { id := "n2", fields := Fields.note "second" none none false, user_id := "u1",
    created_at := 0, updated_at := 4, sync_status := SyncStatus.pending,
    local_updated_at := some 4 }

/-- An outbox `create` entry whose id already exists remotely. -/
def wCre1 : QueueItem :=
  { id := ⟨Table.notes, OpType.create, "n1", 5⟩, kind := OpType.create,
    table := Table.notes, data := QData.ent wNote, timestamp := 5 }

/-- An outbox `create` entry with a remotely fresh id. -/
def wCre2 : QueueItem :=
  { id := ⟨Table.notes, OpType.create, "n2", 6⟩, kind := OpType.create,
    table := Table.notes, data := QData.ent wNote2, timestamp := 6 }

/-- State with one colliding and one fresh queued create. -/
def wStateCre : SyncState :=
  { localdb := { notes := [wNote, wNote2], notebooks := [], sync_queue := [wCre1, wCre2] },
    remote := { notes := [wRemote 3], notebooks := [] } }

/-- A synced local note (no pending edit). -/
def wSyncedNote : Entity :=
  { id := "n1", fields := Fields.note "local" none none false, user_id := "u1",
    created_at := 0, updated_at := 5, sync_status := SyncStatus.synced,
    local_updated_at := none }

/-- A synced local note under an id absent from the remote store. -/
def wStale : Entity :=
  { id := "n9", fields := Fields.note "stale" none none false, user_id := "u1",
    created_at := 0, updated_at := 2, sync_status := SyncStatus.synced,
    local_updated_at := none }

/-- The empty joint state. -/
def emptyState : SyncState :=
  { localdb := emptyDB, remote := { notes := [], notebooks := [] } }

/-- State for the online-delete path: the note exists locally and remotely. -/
def wStateDel : SyncState :=
  { localdb := { notes := [wSyncedNote], notebooks := [], sync_queue := [] },
    remote := { notes := [wRemote 5], notebooks := [] } }

/-- State for the pull theorems: one owned remote row, one stale local row. -/
def wStatePull : SyncState :=
  { localdb := { notes := [wStale], notebooks := [], sync_queue := [] },
    remote := { notes := [wRemote 6], notebooks := [] } }

/-- The remote base row for the two-offline-edits scenario. -/
def wBase : Entity :=
  { id := "n1", fields := Fields.note "orig" none none false, user_id := "u1",
    created_at := 0, updated_at := 0, sync_status := SyncStatus.synced,
    local_updated_at := none }

/-- Local store after two offline saves of the same note (titles "A" at 1,
then "B" at 2), starting from the base row. -/
def wDbTwoEdits : LocalDB :=
  (OfflineStorage.saveNote 2
    { wBase with fields := Fields.note "B" none none false }
    (OfflineStorage.saveNote 1
      { wBase with fields := Fields.note "A" none none false }
      { notes := [wBase], notebooks := [], sync_queue := [] }).2).2

/-- Joint state for the two-offline-edits scenario. -/
def wStateTwoEdits : SyncState :=
  { localdb := wDbTwoEdits, remote := { notes := [wBase], notebooks := [] } }

/-- A concrete history of local-store operations. -/
def wOps : List StoreOp :=
  [StoreOp.mk_create Table.notes 5 wNote, StoreOp.mark Table.notes "n1",
   StoreOp.save Table.notes 7 wNote,
   StoreOp.bulk Table.notebooks [wRemote 6]]

/-- State with one stale synced local note and an empty remote store. -/
def wStatePullEmpty : SyncState :=
  { localdb := { notes := [wStale], notebooks := [], sync_queue := [] },
    remote := { notes := [], notebooks := [] } }

/-- The bookkeeping invariant for one stored entity, relative to a
latest-local-mutation map. -/
def entityInv (lm : Table → String → Option Nat) (t : Table) (e : Entity) : Prop :=
  (e.sync_status = SyncStatus.synced → e.local_updated_at = none) ∧
  (e.sync_status = SyncStatus.pending →
    e.local_updated_at = lm t e.id ∧ e.local_updated_at.isSome)

/-- The bookkeeping invariant for the whole local store. -/
def dbInv (db : LocalDB) (lm : Table → String → Option Nat) : Prop :=
  ∀ t, ∀ e ∈ db.coll t, entityInv lm t e

/-- The record stored by `saveNote` at instant `ts` for input `m`. -/
def savedRec (ts : Nat) (m : Entity) : Entity :=
  { m with local_updated_at := some ts, sync_status := SyncStatus.pending }

/-- The outbox update entry enqueued by `saveNote` at instant `ts`. -/
def updEntry (ts : Nat) (m : Entity) : QueueItem :=
  { id := ⟨Table.notes, OpType.update, m.id, ts⟩, kind := OpType.update,
    table := Table.notes, data := QData.ent (savedRec ts m), timestamp := ts }

/-- Local store after two successive offline saves of the same note. -/
def twoSaves (t1 t2 : Nat) (m1 m2 : Entity) (db0 : LocalDB) : LocalDB :=
  (OfflineStorage.saveNote t2 m2 (OfflineStorage.saveNote t1 m1 db0).2).2

/-! ### Basic lemmas about the keyed record stores -/

theorem findRec_mem {l : List Entity} {i : String} {e : Entity}
    (h : findRec l i = some e) : e ∈ l ∧ e.id = i := by
  induction l with
  | nil => simp [findRec] at h
  | cons a l ih =>
      by_cases ha : a.id = i
      · rw [findRec, if_pos ha] at h
        injection h with h2
        subst h2
        exact ⟨List.mem_cons_self a l, ha⟩
      · rw [findRec, if_neg ha] at h
        rcases ih h with ⟨h1, h2⟩
        exact ⟨List.mem_cons_of_mem a h1, h2⟩

theorem findRec_eq_none {l : List Entity} {i : String}
    (h : ∀ e ∈ l, ¬ e.id = i) : findRec l i = none := by
  induction l with
  | nil => rfl
  | cons a l ih =>
      rw [findRec, if_neg (h a (List.mem_cons_self a l))]
      exact ih (fun e he => h e (List.mem_cons_of_mem a he))

theorem forall_of_findRec_none {l : List Entity} {i : String}
    (h : findRec l i = none) : ∀ e ∈ l, ¬ e.id = i := by
  induction l with
  | nil => intro e he; simp at he
  | cons a l ih =>
      by_cases ha : a.id = i
      · rw [findRec, if_pos ha] at h; cases h
      · rw [findRec, if_neg ha] at h
        intro e he
        rcases List.mem_cons.mp he with rfl | he2
        · exact ha
        · exact ih h e he2

theorem findRec_append_of_none {l l2 : List Entity} {i : String}
    (h : findRec l i = none) : findRec (l ++ l2) i = findRec l2 i := by
  induction l with
  | nil => rfl
  | cons a l ih =>
      by_cases ha : a.id = i
      · rw [findRec, if_pos ha] at h; cases h
      · rw [findRec, if_neg ha] at h
        rw [List.cons_append, findRec, if_neg ha]
        exact ih h

theorem findRec_append_of_some {l l2 : List Entity} {i : String} {e : Entity}
    (h : findRec l i = some e) : findRec (l ++ l2) i = some e := by
  induction l with
  | nil => simp [findRec] at h
  | cons a l ih =>
      by_cases ha : a.id = i
      · rw [findRec, if_pos ha] at h
        rw [List.cons_append, findRec, if_pos ha]
        exact h
      · rw [findRec, if_neg ha] at h
        rw [List.cons_append, findRec, if_neg ha]
        exact ih h

theorem findRec_filter {p : Entity → Bool} {l : List Entity} {i : String}
    (h : ∀ e, e.id = i → p e = true) :
    findRec (l.filter p) i = findRec l i := by
  induction l with
  | nil => rfl
  | cons a l ih =>
      by_cases hpa : p a = true
      · rw [List.filter_cons_of_pos hpa, findRec, findRec]
        by_cases hai : a.id = i
        · rw [if_pos hai, if_pos hai]
        · rw [if_neg hai, if_neg hai]; exact ih
      · have hai : ¬ a.id = i := fun hc => hpa (h a hc)
        rw [List.filter_cons_of_neg hpa, findRec, if_neg hai]
        exact ih

theorem findRec_filter_none {p : Entity → Bool} {l : List Entity} {i : String}
    (h : ∀ e, e.id = i → ¬ p e = true) :
    findRec (l.filter p) i = none := by
  apply findRec_eq_none
  intro e he hei
  exact h e hei (List.of_mem_filter he)

theorem findRec_delRec_ne {l : List Entity} {i j : String} (hij : ¬ i = j) :
    findRec (delRec l j) i = findRec l i := by
  apply findRec_filter
  intro e hei
  simp only [decide_eq_true_eq]
  intro hej
  exact hij (hei ▸ hej)

theorem findRec_delRec_self {l : List Entity} {i : String} :
    findRec (delRec l i) i = none := by
  apply findRec_filter_none
  intro e hei
  simp [hei]

theorem findRec_putRec_self {l : List Entity} {v : Entity} :
    findRec (putRec l v) v.id = some v := by
  unfold putRec
  rw [findRec_append_of_none]
  · rw [findRec, if_pos rfl]
  · apply findRec_filter_none
    intro e hei
    simp [hei]

theorem findRec_putRec_ne {l : List Entity} {v : Entity} {i : String}
    (h : ¬ i = v.id) : findRec (putRec l v) i = findRec l i := by
  unfold putRec
  have h1 : findRec (l.filter (fun e => ¬ e.id = v.id)) i = findRec l i := by
    apply findRec_filter
    intro e hei
    simp only [decide_eq_true_eq]
    intro hev
    exact h (hei ▸ hev)
  cases hf : findRec l i with
  | none =>
      rw [findRec_append_of_none (h1.trans hf), findRec,
        if_neg (fun hc : v.id = i => h hc.symm)]
      rfl
  | some e => exact findRec_append_of_some (h1.trans hf)

theorem mem_putRec {l : List Entity} {v e : Entity} :
    e ∈ putRec l v ↔ (e ∈ l ∧ ¬ e.id = v.id) ∨ e = v := by
  unfold putRec
  simp [List.mem_filter, List.mem_append]

theorem findRec_mapUpd_some {l : List Entity} {j : String} {v w : Entity}
    (hv : v.id = j) (h : findRec l j = some w) :
    findRec (l.map (fun x => if x.id = j then v else x)) j = some v := by
  induction l with
  | nil => simp [findRec] at h
  | cons a l ih =>
      by_cases ha : a.id = j
      · rw [List.map_cons, if_pos ha, findRec, if_pos hv]
      · rw [findRec, if_neg ha] at h
        rw [List.map_cons, if_neg ha, findRec, if_neg ha]
        exact ih h

theorem findRec_mapUpd_ne {l : List Entity} {i j : String} {v : Entity}
    (hv : v.id = j) (hij : ¬ i = j) :
    findRec (l.map (fun x => if x.id = j then v else x)) i = findRec l i := by
  induction l with
  | nil => rfl
  | cons a l ih =>
      by_cases ha : a.id = j
      · have hai : ¬ a.id = i := fun hc => hij (hc ▸ ha)
        have hvi : ¬ v.id = i := fun hc => hij (hc ▸ hv)
        rw [List.map_cons, if_pos ha, findRec, if_neg hvi, findRec, if_neg hai]
        exact ih
      · rw [List.map_cons, if_neg ha, findRec, findRec]
        by_cases hai : a.id = i
        · rw [if_pos hai, if_pos hai]
        · rw [if_neg hai, if_neg hai]; exact ih

theorem mapUpd_of_none {l : List Entity} {j : String} {v : Entity}
    (h : findRec l j = none) :
    l.map (fun x => if x.id = j then v else x) = l := by
  induction l with
  | nil => rfl
  | cons a l ih =>
      by_cases ha : a.id = j
      · rw [findRec, if_pos ha] at h; cases h
      · rw [findRec, if_neg ha] at h
        rw [List.map_cons, if_neg ha, ih h]

/-! ### Table-indexed collection access -/

theorem coll_setColl (db : LocalDB) (t t2 : Table) (l : List Entity) :
    (db.setColl t l).coll t2 = if t2 = t then l else db.coll t2 := by
  cases t <;> cases t2 <;> simp [LocalDB.setColl, LocalDB.coll]

theorem sync_queue_setColl (db : LocalDB) (t : Table) (l : List Entity) :
    (db.setColl t l).sync_queue = db.sync_queue := by
  cases t <;> rfl

theorem rcoll_setColl (r : RemoteDB) (t t2 : Table) (l : List Entity) :
    (r.setColl t l).coll t2 = if t2 = t then l else r.coll t2 := by
  cases t <;> cases t2 <;> simp [RemoteDB.setColl, RemoteDB.coll]

/-! ### Local-store operation lemmas -/

theorem markAsSynced_sync_queue (t : Table) (i : String) (db : LocalDB) :
    (OfflineStorage.markAsSynced t i db).sync_queue = db.sync_queue := by
  unfold OfflineStorage.markAsSynced
  cases findRec (db.coll t) i with
  | none => rfl
  | some e => rw [sync_queue_setColl]

theorem markAsSynced_find_ne {i2 : String} (t : Table) (i : String)
    (db : LocalDB) (t2 : Table) (h : ¬ i2 = i) :
    findRec ((OfflineStorage.markAsSynced t i db).coll t2) i2 =
      findRec (db.coll t2) i2 := by
  unfold OfflineStorage.markAsSynced
  cases hf : findRec (db.coll t) i with
  | none => rfl
  | some e =>
      rw [coll_setColl]
      by_cases ht : t2 = t
      · subst ht
        rw [if_pos rfl]
        have he : e.id = i := (findRec_mem hf).2
        exact findRec_putRec_ne (by simpa [he] using h)
      · rw [if_neg ht]

theorem markAsSynced_find_self {t : Table} {i : String} {db : LocalDB}
    {e : Entity} (hf : findRec (db.coll t) i = some e) :
    findRec ((OfflineStorage.markAsSynced t i db).coll t) i =
      some { e with sync_status := SyncStatus.synced, local_updated_at := none } := by
  unfold OfflineStorage.markAsSynced
  rw [hf, coll_setColl, if_pos rfl]
  have he : e.id = i := (findRec_mem hf).2
  have := findRec_putRec_self (l := db.coll t)
    (v := { e with sync_status := SyncStatus.synced, local_updated_at := none })
  simpa [he] using this

theorem removeSyncQueueItem_coll (k : QKey) (db : LocalDB) (t : Table) :
    (OfflineStorage.removeSyncQueueItem k db).coll t = db.coll t := by
  cases t <;> rfl

theorem removeSyncQueueItem_sync_queue (k : QKey) (db : LocalDB) :
    (OfflineStorage.removeSyncQueueItem k db).sync_queue =
      db.sync_queue.filter (fun i => ¬ i.id = k) := rfl

/-! ### Frame lemmas for the drain engine -/

theorem processOperation_ok_find_ne {now : Nat} {t : Table} {ty : OpType}
    {d : QData} {r r2 : RemoteDB} {i : String} (t2 : Table)
    (hok : SyncManager.processOperation now t ty d r = Except.ok r2)
    (hne : ¬ i = d.dataId) :
    findRec (r2.coll t2) i = findRec (r.coll t2) i := by
  cases ty with
  | create =>
      cases d with
      | idOnly j => exact absurd hok (by simp [SyncManager.processOperation])
      | ent e =>
          simp only [SyncManager.processOperation, remoteInsert] at hok
          by_cases hs : (findRec (r.coll t) e.id).isSome
          · rw [if_pos hs] at hok; cases hok
          · rw [if_neg hs] at hok
            injection hok with hok
            subst hok
            rw [rcoll_setColl]
            by_cases ht : t2 = t
            · subst ht; rw [if_pos rfl]
              have hi : ¬ i = e.id := by simpa [QData.dataId] using hne
              cases hf : findRec (r.coll t2) i with
              | some w => exact findRec_append_of_some hf
              | none =>
                  rw [findRec_append_of_none hf, findRec,
                    if_neg (fun hc : e.id = i => hi hc.symm)]
                  rfl
            · rw [if_neg ht]
  | update =>
      cases d with
      | idOnly j => exact absurd hok (by simp [SyncManager.processOperation])
      | ent e =>
          have hi : ¬ i = e.id := by simpa [QData.dataId] using hne
          simp only [SyncManager.processOperation] at hok
          cases hf : findRec (r.coll t) e.id with
          | some server =>
              rw [hf] at hok
              dsimp only at hok
              by_cases hlt : SyncManager.localTime e < server.updated_at
              · rw [if_pos hlt] at hok; injection hok with hok; subst hok; rfl
              · rw [if_neg hlt] at hok; injection hok with hok; subst hok
                unfold remoteUpdate
                rw [rcoll_setColl]
                by_cases ht : t2 = t
                · subst ht; rw [if_pos rfl]
                  exact findRec_mapUpd_ne rfl hi
                · rw [if_neg ht]
          | none =>
              rw [hf] at hok
              dsimp only at hok
              injection hok with hok; subst hok
              unfold remoteUpdate; rw [rcoll_setColl]
              by_cases ht : t2 = t
              · subst ht; rw [if_pos rfl]; exact findRec_mapUpd_ne rfl hi
              · rw [if_neg ht]
  | delete =>
      cases d with
      | idOnly j =>
          simp only [SyncManager.processOperation] at hok
          injection hok with hok; subst hok
          unfold remoteDelete; rw [rcoll_setColl]
          by_cases ht : t2 = t
          · subst ht; rw [if_pos rfl]; exact findRec_delRec_ne hne
          · rw [if_neg ht]
      | ent e =>
          simp only [SyncManager.processOperation] at hok
          injection hok with hok; subst hok
          unfold remoteDelete; rw [rcoll_setColl]
          by_cases ht : t2 = t
          · subst ht; rw [if_pos rfl]; exact findRec_delRec_ne hne
          · rw [if_neg ht]

theorem stepItem_remote_find_ne {now : Nat} {it : QueueItem} {st : SyncState}
    {cs : List (QueueItem × String)} {i : String} (t2 : Table)
    (hne : ¬ i = it.data.dataId) :
    findRec ((SyncManager.stepItem now it st cs).1.remote.coll t2) i =
      findRec (st.remote.coll t2) i := by
  unfold SyncManager.stepItem
  cases hp : SyncManager.processOperation now it.table it.kind it.data st.remote with
  | ok r2 => exact processOperation_ok_find_ne t2 hp hne
  | error msg => rfl

theorem stepItem_local_find_ne {now : Nat} {it : QueueItem} {st : SyncState}
    {cs : List (QueueItem × String)} {i : String} (t2 : Table)
    (hne : ¬ i = it.data.dataId) :
    findRec ((SyncManager.stepItem now it st cs).1.localdb.coll t2) i =
      findRec (st.localdb.coll t2) i := by
  unfold SyncManager.stepItem
  cases hp : SyncManager.processOperation now it.table it.kind it.data st.remote with
  | ok r2 =>
      show findRec ((OfflineStorage.markAsSynced it.table it.data.dataId
        (OfflineStorage.removeSyncQueueItem it.id st.localdb)).coll t2) i = _
      rw [markAsSynced_find_ne _ _ _ _ hne, removeSyncQueueItem_coll]
  | error msg => rfl

theorem stepItem_queue_sub {now : Nat} {it : QueueItem} {st : SyncState}
    {cs : List (QueueItem × String)} {qi : QueueItem}
    (h : qi ∈ (SyncManager.stepItem now it st cs).1.localdb.sync_queue) :
    qi ∈ st.localdb.sync_queue := by
  unfold SyncManager.stepItem at h
  cases hp : SyncManager.processOperation now it.table it.kind it.data st.remote with
  | ok r2 =>
      rw [hp] at h
      simp only [markAsSynced_sync_queue, removeSyncQueueItem_sync_queue] at h
      exact (List.mem_filter.mp h).1
  | error msg => rw [hp] at h; exact h

theorem stepItem_queue_keep {now : Nat} {it : QueueItem} {st : SyncState}
    {cs : List (QueueItem × String)} {qi : QueueItem}
    (hq : qi ∈ st.localdb.sync_queue) (hne : ¬ qi.id = it.id) :
    qi ∈ (SyncManager.stepItem now it st cs).1.localdb.sync_queue := by
  unfold SyncManager.stepItem
  cases hp : SyncManager.processOperation now it.table it.kind it.data st.remote with
  | ok r2 =>
      show qi ∈ (OfflineStorage.markAsSynced it.table it.data.dataId
        (OfflineStorage.removeSyncQueueItem it.id st.localdb)).sync_queue
      simp only [markAsSynced_sync_queue, removeSyncQueueItem_sync_queue]
      exact List.mem_filter.mpr ⟨hq, by simpa using hne⟩
  | error msg => exact hq

theorem stepItem_conflicts_mono {now : Nat} {it : QueueItem} {st : SyncState}
    {cs : List (QueueItem × String)} {c : QueueItem × String}
    (h : c ∈ cs) : c ∈ (SyncManager.stepItem now it st cs).2 := by
  unfold SyncManager.stepItem
  cases hp : SyncManager.processOperation now it.table it.kind it.data st.remote with
  | ok r2 => exact h
  | error msg => exact List.mem_append_left _ h

theorem processItems_remote_find_frame {now : Nat} {i : String} :
    ∀ (l : List QueueItem) (st : SyncState) (cs : List (QueueItem × String)),
    (∀ it ∈ l, ¬ it.data.dataId = i) → ∀ t2,
    findRec ((SyncManager.processItems now l st cs).1.remote.coll t2) i =
      findRec (st.remote.coll t2) i := by
  intro l
  induction l with
  | nil => intro st cs _ t2; rfl
  | cons x rest ih =>
      intro st cs h t2
      have hx : ¬ i = x.data.dataId :=
        fun hc => h x (List.mem_cons_self x rest) hc.symm
      rw [SyncManager.processItems,
        ih _ _ (fun it hit => h it (List.mem_cons_of_mem x hit)) t2]
      exact stepItem_remote_find_ne t2 hx

theorem processItems_local_find_frame {now : Nat} {i : String} :
    ∀ (l : List QueueItem) (st : SyncState) (cs : List (QueueItem × String)),
    (∀ it ∈ l, ¬ it.data.dataId = i) → ∀ t2,
    findRec ((SyncManager.processItems now l st cs).1.localdb.coll t2) i =
      findRec (st.localdb.coll t2) i := by
  intro l
  induction l with
  | nil => intro st cs _ t2; rfl
  | cons x rest ih =>
      intro st cs h t2
      have hx : ¬ i = x.data.dataId :=
        fun hc => h x (List.mem_cons_self x rest) hc.symm
      rw [SyncManager.processItems,
        ih _ _ (fun it hit => h it (List.mem_cons_of_mem x hit)) t2]
      exact stepItem_local_find_ne t2 hx

theorem processItems_queue_sub {now : Nat} {qi : QueueItem} :
    ∀ (l : List QueueItem) (st : SyncState) (cs : List (QueueItem × String)),
    qi ∈ (SyncManager.processItems now l st cs).1.localdb.sync_queue →
      qi ∈ st.localdb.sync_queue := by
  intro l
  induction l with
  | nil => intro st cs h; exact h
  | cons x rest ih =>
      intro st cs h
      rw [SyncManager.processItems] at h
      exact stepItem_queue_sub (ih _ _ h)

theorem processItems_conflicts_mono {now : Nat} {c : QueueItem × String} :
    ∀ (l : List QueueItem) (st : SyncState) (cs : List (QueueItem × String)),
    c ∈ cs → c ∈ (SyncManager.processItems now l st cs).2 := by
  intro l
  induction l with
  | nil => intro st cs h; exact h
  | cons x rest ih =>
      intro st cs h
      rw [SyncManager.processItems]
      exact ih _ _ (stepItem_conflicts_mono h)

/-! ### Characterization of single drain steps -/

theorem processOperation_update_skip {now : Nat} {t : Table} {d r : Entity}
    {rdb : RemoteDB} (hrem : findRec (rdb.coll t) d.id = some r)
    (hlt : SyncManager.localTime d < r.updated_at) :
    SyncManager.processOperation now t OpType.update (QData.ent d) rdb =
      Except.ok rdb := by
  unfold SyncManager.processOperation
  dsimp only
  rw [hrem]
  dsimp only
  rw [if_pos hlt]

theorem processOperation_update_push {now : Nat} {t : Table} {d r : Entity}
    {rdb : RemoteDB} (hrem : findRec (rdb.coll t) d.id = some r)
    (hge : ¬ SyncManager.localTime d < r.updated_at) :
    SyncManager.processOperation now t OpType.update (QData.ent d) rdb =
      Except.ok (remoteUpdate rdb t d.id { d with updated_at := now }) := by
  unfold SyncManager.processOperation
  dsimp only
  rw [hrem]
  dsimp only
  rw [if_neg hge]

theorem processOperation_create_dup {now : Nat} {t : Table} {d : Entity}
    {rdb : RemoteDB} (h : (findRec (rdb.coll t) d.id).isSome) :
    SyncManager.processOperation now t OpType.create (QData.ent d) rdb =
      Except.error "duplicate key" := by
  unfold SyncManager.processOperation remoteInsert
  dsimp only
  rw [if_pos h]

theorem processOperation_create_ok {now : Nat} {t : Table} {d : Entity}
    {rdb : RemoteDB} (h : findRec (rdb.coll t) d.id = none) :
    SyncManager.processOperation now t OpType.create (QData.ent d) rdb =
      Except.ok (rdb.setColl t (rdb.coll t ++ [d])) := by
  unfold SyncManager.processOperation remoteInsert
  dsimp only
  rw [if_neg (by rw [h]; simp)]

theorem stepItem_ok_eq {now : Nat} {it : QueueItem} {st : SyncState}
    {cs : List (QueueItem × String)} {r2 : RemoteDB}
    (h : SyncManager.processOperation now it.table it.kind it.data st.remote =
      Except.ok r2) :
    SyncManager.stepItem now it st cs =
      ({ localdb := OfflineStorage.markAsSynced it.table it.data.dataId
            (OfflineStorage.removeSyncQueueItem it.id st.localdb),
         remote := r2 }, cs) := by
  unfold SyncManager.stepItem
  rw [h]

theorem stepItem_error_eq {now : Nat} {it : QueueItem} {st : SyncState}
    {cs : List (QueueItem × String)} {msg : String}
    (h : SyncManager.processOperation now it.table it.kind it.data st.remote =
      Except.error msg) :
    SyncManager.stepItem now it st cs = (st, cs ++ [(it, msg)]) := by
  unfold SyncManager.stepItem
  rw [h]

theorem marked_fixed {m : Entity} (h1 : m.sync_status = SyncStatus.synced)
    (h2 : m.local_updated_at = none) :
    ({ m with sync_status := SyncStatus.synced, local_updated_at := none } : Entity) = m := by
  cases m
  simp_all

/-! ### The grouped processing order visits exactly the queue snapshot -/

theorem groupKeys_acc_mono {k : Table × OpType} :
    ∀ (l : List QueueItem) (acc : List (Table × OpType)), k ∈ acc →
    k ∈ l.foldl (fun acc i => if SyncManager.qkeyOf i ∈ acc then acc
      else acc ++ [SyncManager.qkeyOf i]) acc := by
  intro l
  induction l with
  | nil => intro acc h; exact h
  | cons x rest ih =>
      intro acc h
      rw [List.foldl_cons]
      apply ih
      by_cases hx : SyncManager.qkeyOf x ∈ acc
      · rw [if_pos hx]; exact h
      · rw [if_neg hx]; exact List.mem_append_left _ h

theorem mem_groupKeys_aux {i : QueueItem} :
    ∀ (l : List QueueItem) (acc : List (Table × OpType)), i ∈ l →
    SyncManager.qkeyOf i ∈ l.foldl (fun acc it => if SyncManager.qkeyOf it ∈ acc
      then acc else acc ++ [SyncManager.qkeyOf it]) acc := by
  intro l
  induction l with
  | nil => intro acc h; simp at h
  | cons x rest ih =>
      intro acc h
      rw [List.foldl_cons]
      rcases List.mem_cons.mp h with rfl | h2
      · apply groupKeys_acc_mono
        by_cases hx : SyncManager.qkeyOf i ∈ acc
        · rw [if_pos hx]; exact hx
        · rw [if_neg hx]
          exact List.mem_append_right _ (List.mem_singleton.mpr rfl)
      · exact ih _ h2

theorem mem_groupedOrder {l : List QueueItem} {i : QueueItem} (h : i ∈ l) :
    i ∈ SyncManager.groupedOrder l := by
  unfold SyncManager.groupedOrder
  apply List.mem_flatMap.mpr
  refine ⟨SyncManager.qkeyOf i, ?_, ?_⟩
  · unfold SyncManager.groupKeys
    exact mem_groupKeys_aux l [] h
  · exact List.mem_filter.mpr ⟨h, by simp⟩

theorem groupedOrder_sub {l : List QueueItem} {i : QueueItem}
    (h : i ∈ SyncManager.groupedOrder l) : i ∈ l := by
  unfold SyncManager.groupedOrder at h
  rcases List.mem_flatMap.mp h with ⟨k, _, hf⟩
  exact (List.mem_filter.mp hf).1

/-! ### Drain of an update entry whose remote is strictly newer (skip path) -/

theorem processItems_skip_stable {now : Nat} {e : QueueItem} {d r m : Entity}
    (hty : e.kind = OpType.update) (hdata : e.data = QData.ent d)
    (hlt : SyncManager.localTime d < r.updated_at)
    (hm1 : m.sync_status = SyncStatus.synced)
    (hm2 : m.local_updated_at = none) :
    ∀ (l : List QueueItem) (st : SyncState) (cs : List (QueueItem × String)),
    (∀ it ∈ l, it ≠ e → ¬ it.data.dataId = d.id) →
    findRec (st.remote.coll e.table) d.id = some r →
    findRec (st.localdb.coll e.table) d.id = some m →
    (∀ qi ∈ st.localdb.sync_queue, ¬ qi.id = e.id) →
    findRec ((SyncManager.processItems now l st cs).1.remote.coll e.table) d.id = some r ∧
    findRec ((SyncManager.processItems now l st cs).1.localdb.coll e.table) d.id = some m ∧
    (∀ qi ∈ (SyncManager.processItems now l st cs).1.localdb.sync_queue,
      ¬ qi.id = e.id) := by
  intro l
  induction l with
  | nil => intro st cs _ h1 h2 h3; exact ⟨h1, h2, h3⟩
  | cons x rest ih =>
      intro st cs hothers h1 h2 h3
      rw [SyncManager.processItems]
      by_cases hx : x = e
      · subst hx
        have hpo : SyncManager.processOperation now x.table x.kind x.data
            st.remote = Except.ok st.remote := by
          rw [hty, hdata]
          exact processOperation_update_skip h1 hlt
        rw [stepItem_ok_eq hpo]
        have hdid : x.data.dataId = d.id := by rw [hdata]; rfl
        apply ih
        · intro it hit hne
          exact hothers it (List.mem_cons_of_mem _ hit) hne
        · exact h1
        · show findRec ((OfflineStorage.markAsSynced x.table x.data.dataId
            (OfflineStorage.removeSyncQueueItem x.id st.localdb)).coll x.table)
              d.id = some m
          have hloc : findRec ((OfflineStorage.removeSyncQueueItem x.id
              st.localdb).coll x.table) d.id = some m := by
            rw [removeSyncQueueItem_coll]; exact h2
          rw [hdid, markAsSynced_find_self hloc, marked_fixed hm1 hm2]
        · show ∀ qi ∈ (OfflineStorage.markAsSynced x.table x.data.dataId
            (OfflineStorage.removeSyncQueueItem x.id st.localdb)).sync_queue,
              ¬ qi.id = x.id
          intro qi hqi
          rw [markAsSynced_sync_queue, removeSyncQueueItem_sync_queue] at hqi
          exact h3 qi (List.mem_filter.mp hqi).1
      · have hxid : ¬ x.data.dataId = d.id :=
          hothers x (List.mem_cons_self x rest) hx
        apply ih
        · intro it hit hne
          exact hothers it (List.mem_cons_of_mem _ hit) hne
        · rw [stepItem_remote_find_ne e.table (fun hc => hxid hc.symm)]
          exact h1
        · rw [stepItem_local_find_ne e.table (fun hc => hxid hc.symm)]
          exact h2
        · intro qi hqi
          exact h3 qi (stepItem_queue_sub hqi)

theorem processItems_skip_main {now : Nat} {e : QueueItem} {d r n : Entity}
    (hty : e.kind = OpType.update) (hdata : e.data = QData.ent d)
    (hlt : SyncManager.localTime d < r.updated_at) :
    ∀ (l : List QueueItem) (st : SyncState) (cs : List (QueueItem × String)),
    e ∈ l →
    (∀ it ∈ l, it ≠ e → ¬ it.data.dataId = d.id) →
    findRec (st.remote.coll e.table) d.id = some r →
    findRec (st.localdb.coll e.table) d.id = some n →
    findRec ((SyncManager.processItems now l st cs).1.remote.coll e.table) d.id = some r ∧
    findRec ((SyncManager.processItems now l st cs).1.localdb.coll e.table) d.id =
      some { n with sync_status := SyncStatus.synced, local_updated_at := none } ∧
    (∀ qi ∈ (SyncManager.processItems now l st cs).1.localdb.sync_queue,
      ¬ qi.id = e.id) := by
  intro l
  induction l with
  | nil => intro st cs hmem; simp at hmem
  | cons x rest ih =>
      intro st cs hmem hothers h1 h2
      rw [SyncManager.processItems]
      by_cases hx : x = e
      · subst hx
        have hpo : SyncManager.processOperation now x.table x.kind x.data
            st.remote = Except.ok st.remote := by
          rw [hty, hdata]
          exact processOperation_update_skip h1 hlt
        rw [stepItem_ok_eq hpo]
        have hdid : x.data.dataId = d.id := by rw [hdata]; rfl
        apply processItems_skip_stable hty hdata hlt rfl rfl
        · intro it hit hne
          exact hothers it (List.mem_cons_of_mem _ hit) hne
        · exact h1
        · show findRec ((OfflineStorage.markAsSynced x.table x.data.dataId
            (OfflineStorage.removeSyncQueueItem x.id st.localdb)).coll x.table)
              d.id = _
          have hloc : findRec ((OfflineStorage.removeSyncQueueItem x.id
              st.localdb).coll x.table) d.id = some n := by
            rw [removeSyncQueueItem_coll]; exact h2
          rw [hdid, markAsSynced_find_self hloc]
        · show ∀ qi ∈ (OfflineStorage.markAsSynced x.table x.data.dataId
            (OfflineStorage.removeSyncQueueItem x.id st.localdb)).sync_queue,
              ¬ qi.id = x.id
          intro qi hqi
          rw [markAsSynced_sync_queue, removeSyncQueueItem_sync_queue] at hqi
          have := (List.mem_filter.mp hqi).2
          simpa using this
      · have hmem2 : e ∈ rest := by
          rcases List.mem_cons.mp hmem with h | h
          · exact absurd h.symm hx
          · exact h
        have hxid : ¬ x.data.dataId = d.id :=
          hothers x (List.mem_cons_self x rest) hx
        apply ih
        · exact hmem2
        · intro it hit hne
          exact hothers it (List.mem_cons_of_mem _ hit) hne
        · rw [stepItem_remote_find_ne e.table (fun hc => hxid hc.symm)]
          exact h1
        · rw [stepItem_local_find_ne e.table (fun hc => hxid hc.symm)]
          exact h2

/-! ### Drain of an update entry whose local time is not older (push path) -/

theorem processItems_push_stable {now : Nat} {e : QueueItem} {d m : Entity}
    (hty : e.kind = OpType.update) (hdata : e.data = QData.ent d)
    (hm1 : m.sync_status = SyncStatus.synced)
    (hm2 : m.local_updated_at = none) :
    ∀ (l : List QueueItem) (st : SyncState) (cs : List (QueueItem × String)),
    (∀ it ∈ l, it ≠ e → ¬ it.data.dataId = d.id) →
    findRec (st.remote.coll e.table) d.id = some { d with updated_at := now } →
    findRec (st.localdb.coll e.table) d.id = some m →
    (∀ qi ∈ st.localdb.sync_queue, ¬ qi.id = e.id) →
    findRec ((SyncManager.processItems now l st cs).1.remote.coll e.table) d.id =
      some { d with updated_at := now } ∧
    findRec ((SyncManager.processItems now l st cs).1.localdb.coll e.table) d.id = some m ∧
    (∀ qi ∈ (SyncManager.processItems now l st cs).1.localdb.sync_queue,
      ¬ qi.id = e.id) := by
  intro l
  induction l with
  | nil => intro st cs _ h1 h2 h3; exact ⟨h1, h2, h3⟩
  | cons x rest ih =>
      intro st cs hothers h1 h2 h3
      rw [SyncManager.processItems]
      by_cases hx : x = e
      · subst hx
        have hdid : x.data.dataId = d.id := by rw [hdata]; rfl
        by_cases hlt : SyncManager.localTime d <
            (({ d with updated_at := now } : Entity)).updated_at
        · -- the re-encountered entry is skipped: remote unchanged
          have hpo : SyncManager.processOperation now x.table x.kind x.data
              st.remote = Except.ok st.remote := by
            rw [hty, hdata]
            exact processOperation_update_skip h1 hlt
          rw [stepItem_ok_eq hpo]
          apply ih
          · intro it hit hne
            exact hothers it (List.mem_cons_of_mem _ hit) hne
          · exact h1
          · show findRec ((OfflineStorage.markAsSynced x.table x.data.dataId
              (OfflineStorage.removeSyncQueueItem x.id st.localdb)).coll x.table)
                d.id = some m
            have hloc : findRec ((OfflineStorage.removeSyncQueueItem x.id
                st.localdb).coll x.table) d.id = some m := by
              rw [removeSyncQueueItem_coll]; exact h2
            rw [hdid, markAsSynced_find_self hloc, marked_fixed hm1 hm2]
          · show ∀ qi ∈ (OfflineStorage.markAsSynced x.table x.data.dataId
              (OfflineStorage.removeSyncQueueItem x.id st.localdb)).sync_queue,
                ¬ qi.id = x.id
            intro qi hqi
            rw [markAsSynced_sync_queue, removeSyncQueueItem_sync_queue] at hqi
            exact h3 qi (List.mem_filter.mp hqi).1
        · -- the re-encountered entry is pushed again with the same payload
          have hpo : SyncManager.processOperation now x.table x.kind x.data
              st.remote = Except.ok (remoteUpdate st.remote x.table d.id
                { d with updated_at := now }) := by
            rw [hty, hdata]
            exact processOperation_update_push h1 hlt
          rw [stepItem_ok_eq hpo]
          apply ih
          · intro it hit hne
            exact hothers it (List.mem_cons_of_mem _ hit) hne
          · show findRec ((remoteUpdate st.remote x.table d.id
              { d with updated_at := now }).coll x.table) d.id = _
            unfold remoteUpdate
            rw [rcoll_setColl, if_pos rfl]
            exact findRec_mapUpd_some rfl h1
          · show findRec ((OfflineStorage.markAsSynced x.table x.data.dataId
              (OfflineStorage.removeSyncQueueItem x.id st.localdb)).coll x.table)
                d.id = some m
            have hloc : findRec ((OfflineStorage.removeSyncQueueItem x.id
                st.localdb).coll x.table) d.id = some m := by
              rw [removeSyncQueueItem_coll]; exact h2
            rw [hdid, markAsSynced_find_self hloc, marked_fixed hm1 hm2]
          · show ∀ qi ∈ (OfflineStorage.markAsSynced x.table x.data.dataId
              (OfflineStorage.removeSyncQueueItem x.id st.localdb)).sync_queue,
                ¬ qi.id = x.id
            intro qi hqi
            rw [markAsSynced_sync_queue, removeSyncQueueItem_sync_queue] at hqi
            exact h3 qi (List.mem_filter.mp hqi).1
      · have hxid : ¬ x.data.dataId = d.id :=
          hothers x (List.mem_cons_self x rest) hx
        apply ih
        · intro it hit hne
          exact hothers it (List.mem_cons_of_mem _ hit) hne
        · rw [stepItem_remote_find_ne e.table (fun hc => hxid hc.symm)]
          exact h1
        · rw [stepItem_local_find_ne e.table (fun hc => hxid hc.symm)]
          exact h2
        · intro qi hqi
          exact h3 qi (stepItem_queue_sub hqi)

theorem processItems_push_main {now : Nat} {e : QueueItem} {d r n : Entity}
    (hty : e.kind = OpType.update) (hdata : e.data = QData.ent d)
    (hge : ¬ SyncManager.localTime d < r.updated_at) :
    ∀ (l : List QueueItem) (st : SyncState) (cs : List (QueueItem × String)),
    e ∈ l →
    (∀ it ∈ l, it ≠ e → ¬ it.data.dataId = d.id) →
    findRec (st.remote.coll e.table) d.id = some r →
    findRec (st.localdb.coll e.table) d.id = some n →
    findRec ((SyncManager.processItems now l st cs).1.remote.coll e.table) d.id =
      some { d with updated_at := now } ∧
    findRec ((SyncManager.processItems now l st cs).1.localdb.coll e.table) d.id =
      some { n with sync_status := SyncStatus.synced, local_updated_at := none } ∧
    (∀ qi ∈ (SyncManager.processItems now l st cs).1.localdb.sync_queue,
      ¬ qi.id = e.id) := by
  intro l
  induction l with
  | nil => intro st cs hmem; simp at hmem
  | cons x rest ih =>
      intro st cs hmem hothers h1 h2
      rw [SyncManager.processItems]
      by_cases hx : x = e
      · subst hx
        have hpo : SyncManager.processOperation now x.table x.kind x.data
            st.remote = Except.ok (remoteUpdate st.remote x.table d.id
              { d with updated_at := now }) := by
          rw [hty, hdata]
          exact processOperation_update_push h1 hge
        rw [stepItem_ok_eq hpo]
        have hdid : x.data.dataId = d.id := by rw [hdata]; rfl
        apply processItems_push_stable hty hdata rfl rfl
        · intro it hit hne
          exact hothers it (List.mem_cons_of_mem _ hit) hne
        · show findRec ((remoteUpdate st.remote x.table d.id
            { d with updated_at := now }).coll x.table) d.id = _
          unfold remoteUpdate
          rw [rcoll_setColl, if_pos rfl]
          exact findRec_mapUpd_some rfl h1
        · show findRec ((OfflineStorage.markAsSynced x.table x.data.dataId
            (OfflineStorage.removeSyncQueueItem x.id st.localdb)).coll x.table)
              d.id = _
          have hloc : findRec ((OfflineStorage.removeSyncQueueItem x.id
              st.localdb).coll x.table) d.id = some n := by
            rw [removeSyncQueueItem_coll]; exact h2
          rw [hdid, markAsSynced_find_self hloc]
        · show ∀ qi ∈ (OfflineStorage.markAsSynced x.table x.data.dataId
            (OfflineStorage.removeSyncQueueItem x.id st.localdb)).sync_queue,
              ¬ qi.id = x.id
          intro qi hqi
          rw [markAsSynced_sync_queue, removeSyncQueueItem_sync_queue] at hqi
          have := (List.mem_filter.mp hqi).2
          simpa using this
      · have hmem2 : e ∈ rest := by
          rcases List.mem_cons.mp hmem with h | h
          · exact absurd h.symm hx
          · exact h
        have hxid : ¬ x.data.dataId = d.id :=
          hothers x (List.mem_cons_self x rest) hx
        apply ih
        · exact hmem2
        · intro it hit hne
          exact hothers it (List.mem_cons_of_mem _ hit) hne
        · rw [stepItem_remote_find_ne e.table (fun hc => hxid hc.symm)]
          exact h1
        · rw [stepItem_local_find_ne e.table (fun hc => hxid hc.symm)]
          exact h2

/-! ### Drain of a create entry that collides with an existing remote row -/

theorem processItems_fail_create {now : Nat} {e : QueueItem} {d r0 : Entity}
    (hty : e.kind = OpType.create) (hdata : e.data = QData.ent d) :
    ∀ (l : List QueueItem) (st : SyncState) (cs : List (QueueItem × String)),
    (∀ it ∈ l, it ≠ e → ¬ it.data.dataId = d.id) →
    (∀ it ∈ l, it ≠ e → ¬ it.id = e.id) →
    findRec (st.remote.coll e.table) d.id = some r0 →
    e ∈ st.localdb.sync_queue →
    e ∈ (SyncManager.processItems now l st cs).1.localdb.sync_queue ∧
    findRec ((SyncManager.processItems now l st cs).1.remote.coll e.table) d.id = some r0 ∧
    (∀ c ∈ cs, c ∈ (SyncManager.processItems now l st cs).2) ∧
    (e ∈ l → (e, "duplicate key") ∈ (SyncManager.processItems now l st cs).2) := by
  intro l
  induction l with
  | nil =>
      intro st cs _ _ h1 h2
      exact ⟨h2, h1, fun c hc => hc, fun hmem => by simp at hmem⟩
  | cons x rest ih =>
      intro st cs hothers hoid h1 h2
      rw [SyncManager.processItems]
      by_cases hx : x = e
      · subst hx
        have hpo : SyncManager.processOperation now x.table x.kind x.data
            st.remote = Except.error "duplicate key" := by
          rw [hty, hdata]
          exact processOperation_create_dup (by rw [h1]; rfl)
        rw [stepItem_error_eq hpo]
        rcases ih st (cs ++ [(x, "duplicate key")])
            (fun it hit hne => hothers it (List.mem_cons_of_mem _ hit) hne)
            (fun it hit hne => hoid it (List.mem_cons_of_mem _ hit) hne)
            h1 h2 with ⟨c1, c2, c3, _⟩
        refine ⟨c1, c2, fun c hc => c3 c (List.mem_append_left _ hc), fun _ => ?_⟩
        exact c3 (x, "duplicate key")
          (List.mem_append_right _ (List.mem_singleton.mpr rfl))
      · have hxid : ¬ x.data.dataId = d.id :=
          hothers x (List.mem_cons_self x rest) hx
        have hxk : ¬ x.id = e.id := hoid x (List.mem_cons_self x rest) hx
        have hq2 : e ∈ (SyncManager.stepItem now x st cs).1.localdb.sync_queue :=
          stepItem_queue_keep h2 (fun hc => hxk hc.symm)
        have hr2 : findRec ((SyncManager.stepItem now x st cs).1.remote.coll
            e.table) d.id = some r0 := by
          rw [stepItem_remote_find_ne e.table (fun hc => hxid hc.symm)]
          exact h1
        rcases ih (SyncManager.stepItem now x st cs).1
            (SyncManager.stepItem now x st cs).2
            (fun it hit hne => hothers it (List.mem_cons_of_mem _ hit) hne)
            (fun it hit hne => hoid it (List.mem_cons_of_mem _ hit) hne)
            hr2 hq2 with ⟨c1, c2, c3, c4⟩
        refine ⟨c1, c2, fun c hc => c3 c (stepItem_conflicts_mono hc), fun hmem => ?_⟩
        have hmem2 : e ∈ rest := by
          rcases List.mem_cons.mp hmem with h | h
          · exact absurd h.symm hx
          · exact h
        exact c4 hmem2

/-! ### Drain of a create entry whose id is fresh at the remote -/

theorem processItems_created_stable {now : Nat} {e : QueueItem} {d : Entity}
    (hty : e.kind = OpType.create) (hdata : e.data = QData.ent d) :
    ∀ (l : List QueueItem) (st : SyncState) (cs : List (QueueItem × String)),
    (∀ it ∈ l, it ≠ e → ¬ it.data.dataId = d.id) →
    findRec (st.remote.coll e.table) d.id = some d →
    (∀ qi ∈ st.localdb.sync_queue, ¬ qi.id = e.id) →
    findRec ((SyncManager.processItems now l st cs).1.remote.coll e.table) d.id = some d ∧
    (∀ qi ∈ (SyncManager.processItems now l st cs).1.localdb.sync_queue,
      ¬ qi.id = e.id) := by
  intro l
  induction l with
  | nil => intro st cs _ h1 h3; exact ⟨h1, h3⟩
  | cons x rest ih =>
      intro st cs hothers h1 h3
      rw [SyncManager.processItems]
      by_cases hx : x = e
      · subst hx
        have hpo : SyncManager.processOperation now x.table x.kind x.data
            st.remote = Except.error "duplicate key" := by
          rw [hty, hdata]
          exact processOperation_create_dup (by rw [h1]; rfl)
        rw [stepItem_error_eq hpo]
        exact ih st (cs ++ [(x, "duplicate key")])
          (fun it hit hne => hothers it (List.mem_cons_of_mem _ hit) hne)
          h1 h3
      · have hxid : ¬ x.data.dataId = d.id :=
          hothers x (List.mem_cons_self x rest) hx
        apply ih
        · intro it hit hne
          exact hothers it (List.mem_cons_of_mem _ hit) hne
        · rw [stepItem_remote_find_ne e.table (fun hc => hxid hc.symm)]
          exact h1
        · intro qi hqi
          exact h3 qi (stepItem_queue_sub hqi)

theorem processItems_create_ok_main {now : Nat} {e : QueueItem} {d : Entity}
    (hty : e.kind = OpType.create) (hdata : e.data = QData.ent d) :
    ∀ (l : List QueueItem) (st : SyncState) (cs : List (QueueItem × String)),
    e ∈ l →
    (∀ it ∈ l, it ≠ e → ¬ it.data.dataId = d.id) →
    findRec (st.remote.coll e.table) d.id = none →
    findRec ((SyncManager.processItems now l st cs).1.remote.coll e.table) d.id = some d ∧
    (∀ qi ∈ (SyncManager.processItems now l st cs).1.localdb.sync_queue,
      ¬ qi.id = e.id) := by
  intro l
  induction l with
  | nil => intro st cs hmem; simp at hmem
  | cons x rest ih =>
      intro st cs hmem hothers h1
      rw [SyncManager.processItems]
      by_cases hx : x = e
      · subst hx
        have hpo : SyncManager.processOperation now x.table x.kind x.data
            st.remote = Except.ok (st.remote.setColl x.table
              (st.remote.coll x.table ++ [d])) := by
          rw [hty, hdata]
          exact processOperation_create_ok h1
        rw [stepItem_ok_eq hpo]
        apply processItems_created_stable hty hdata
        · intro it hit hne
          exact hothers it (List.mem_cons_of_mem _ hit) hne
        · show findRec ((st.remote.setColl x.table
            (st.remote.coll x.table ++ [d])).coll x.table) d.id = some d
          rw [rcoll_setColl, if_pos rfl, findRec_append_of_none h1, findRec,
            if_pos rfl]
        · show ∀ qi ∈ (OfflineStorage.markAsSynced x.table x.data.dataId
            (OfflineStorage.removeSyncQueueItem x.id st.localdb)).sync_queue,
              ¬ qi.id = x.id
          intro qi hqi
          rw [markAsSynced_sync_queue, removeSyncQueueItem_sync_queue] at hqi
          have := (List.mem_filter.mp hqi).2
          simpa using this
      · have hmem2 : e ∈ rest := by
          rcases List.mem_cons.mp hmem with h | h
          · exact absurd h.symm hx
          · exact h
        have hxid : ¬ x.data.dataId = d.id :=
          hothers x (List.mem_cons_self x rest) hx
        apply ih
        · exact hmem2
        · intro it hit hne
          exact hothers it (List.mem_cons_of_mem _ hit) hne
        · rw [stepItem_remote_find_ne e.table (fun hc => hxid hc.symm)]
          exact h1

/-! ### Claim theorems -/

/-- Claim C1: for every outbox `update` entry whose entity has a remote
record with `updated_at` strictly greater than the local entity's
`local_updated_at` (falling back to `updated_at` when absent), draining the
outbox does not overwrite the remote record, removes that outbox entry, and
marks the local entity `sync_status = synced` (clearing
`local_updated_at`). -/
theorem C1_remote_newer_update_abandoned
    (now : Nat) (st : SyncState) (e : QueueItem) (d r n : Entity)
    (hmem : e ∈ st.localdb.sync_queue)
    (hty : e.kind = OpType.update)
    (hdata : e.data = QData.ent d)
    (huniq : ∀ it ∈ st.localdb.sync_queue, it ≠ e → ¬ it.data.dataId = d.id)
    (hrem : findRec (st.remote.coll e.table) d.id = some r)
    (hnewer : SyncManager.localTime d < r.updated_at)
    (hloc : findRec (st.localdb.coll e.table) d.id = some n) :
    findRec ((SyncManager.syncToServer true now st).2.remote.coll e.table) d.id = some r ∧
    (∀ qi ∈ (SyncManager.syncToServer true now st).2.localdb.sync_queue,
      ¬ qi.id = e.id) ∧
    findRec ((SyncManager.syncToServer true now st).2.localdb.coll e.table) d.id =
      some { n with sync_status := SyncStatus.synced, local_updated_at := none } := by
  have h := @processItems_skip_main now e d r n hty hdata hnewer
    (SyncManager.groupedOrder st.localdb.sync_queue) st []
    (mem_groupedOrder hmem)
    (fun it hit hne => huniq it (groupedOrder_sub hit) hne)
    hrem hloc
  unfold SyncManager.syncToServer
  rw [if_pos rfl]
  exact ⟨h.1, h.2.2, h.2.1⟩

/-- Claim C1 witness: the theorem applied at a concrete state whose remote
stamp 6 exceeds the local time 5. -/
theorem C1_witness :
    (wUpd ∈ (wState 6).localdb.sync_queue ∧
      SyncManager.localTime wNote < (wRemote 6).updated_at) ∧
    findRec ((SyncManager.syncToServer true 9 (wState 6)).2.remote.coll Table.notes)
        "n1" = some (wRemote 6) ∧
    (∀ qi ∈ (SyncManager.syncToServer true 9 (wState 6)).2.localdb.sync_queue,
      ¬ qi.id = wUpd.id) ∧
    findRec ((SyncManager.syncToServer true 9 (wState 6)).2.localdb.coll Table.notes)
        "n1" = some { wNote with sync_status := SyncStatus.synced, local_updated_at := none } := by
  refine ⟨⟨by decide, by decide⟩, ?_⟩
  exact C1_remote_newer_update_abandoned 9 (wState 6) wUpd wNote (wRemote 6) wNote
    (by decide) (by decide) (by decide) (by decide) (by decide) (by decide) (by decide)

/-- Claim C2 counterexample: at an exact timestamp tie (local time 5, remote
`updated_at` 5) the drain does NOT abandon the update — the remote row is
overwritten with the local payload, freshly stamped. -/
theorem C2_counterexample :
    SyncManager.localTime wNote = (wRemote 5).updated_at ∧
    ¬ findRec ((SyncManager.syncToServer true 9 (wState 5)).2.remote.coll Table.notes)
        "n1" = some (wRemote 5) ∧
    findRec ((SyncManager.syncToServer true 9 (wState 5)).2.remote.coll Table.notes)
        "n1" = some { wNote with updated_at := 9 } := by decide

/-- Claim C2 (amended): remote wins only when strictly newer.  On an exact
tie between the remote `updated_at` and the local time, the drain does not
abandon the update: the remote record is overwritten with the local payload
(freshly stamped), the outbox entry is removed, and the local entity is
marked synced. -/
theorem C2_tie_pushes_local_payload
    (now : Nat) (st : SyncState) (e : QueueItem) (d r n : Entity)
    (hmem : e ∈ st.localdb.sync_queue)
    (hty : e.kind = OpType.update)
    (hdata : e.data = QData.ent d)
    (huniq : ∀ it ∈ st.localdb.sync_queue, it ≠ e → ¬ it.data.dataId = d.id)
    (hrem : findRec (st.remote.coll e.table) d.id = some r)
    (htie : SyncManager.localTime d = r.updated_at)
    (hloc : findRec (st.localdb.coll e.table) d.id = some n) :
    findRec ((SyncManager.syncToServer true now st).2.remote.coll e.table) d.id =
      some { d with updated_at := now } ∧
    (∀ qi ∈ (SyncManager.syncToServer true now st).2.localdb.sync_queue,
      ¬ qi.id = e.id) ∧
    findRec ((SyncManager.syncToServer true now st).2.localdb.coll e.table) d.id =
      some { n with sync_status := SyncStatus.synced, local_updated_at := none } := by
  have hge : ¬ SyncManager.localTime d < r.updated_at := by
    rw [htie]; exact lt_irrefl _
  have h := @processItems_push_main now e d r n hty hdata hge
    (SyncManager.groupedOrder st.localdb.sync_queue) st []
    (mem_groupedOrder hmem)
    (fun it hit hne => huniq it (groupedOrder_sub hit) hne)
    hrem hloc
  unfold SyncManager.syncToServer
  rw [if_pos rfl]
  exact ⟨h.1, h.2.2, h.2.1⟩

/-- Claim C2 witness: the amended theorem applied at the concrete tie state. -/
theorem C2_witness :
    (SyncManager.localTime wNote = (wRemote 5).updated_at ∧
      wUpd ∈ (wState 5).localdb.sync_queue) ∧
    findRec ((SyncManager.syncToServer true 9 (wState 5)).2.remote.coll Table.notes)
        "n1" = some { wNote with updated_at := 9 } ∧
    (∀ qi ∈ (SyncManager.syncToServer true 9 (wState 5)).2.localdb.sync_queue,
      ¬ qi.id = wUpd.id) ∧
    findRec ((SyncManager.syncToServer true 9 (wState 5)).2.localdb.coll Table.notes)
        "n1" = some { wNote with sync_status := SyncStatus.synced, local_updated_at := none } := by
  refine ⟨⟨by decide, by decide⟩, ?_⟩
  exact C2_tie_pushes_local_payload 9 (wState 5) wUpd wNote (wRemote 5) wNote
    (by decide) (by decide) (by decide) (by decide) (by decide) (by decide) (by decide)

/-- Claim C5 counterexample: at a concrete drain of a pushed update, the row
written remotely still carries the local-only bookkeeping fields —
`local_updated_at = some 5` and `sync_status = pending` — so the payload is
not the entity minus the bookkeeping fields. -/
theorem C5_counterexample :
    (findRec ((SyncManager.syncToServer true 9 (wState 3)).2.remote.coll Table.notes)
        "n1").map Entity.local_updated_at = some (some 5) ∧
    (findRec ((SyncManager.syncToServer true 9 (wState 3)).2.remote.coll Table.notes)
        "n1").map Entity.sync_status = some SyncStatus.pending := by decide

/-- Claim C5 (amended): for every outbox update entry that the drain pushes
(local time not older than remote), the remote row is overwritten with the
FULL local snapshot — every field of the queued payload, `local_updated_at`
and `sync_status` included — with only `updated_at` freshly stamped; the
entry is then removed from the outbox. -/
theorem C5_push_payload_is_full_snapshot
    (now : Nat) (st : SyncState) (e : QueueItem) (d r n : Entity)
    (hmem : e ∈ st.localdb.sync_queue)
    (hty : e.kind = OpType.update)
    (hdata : e.data = QData.ent d)
    (huniq : ∀ it ∈ st.localdb.sync_queue, it ≠ e → ¬ it.data.dataId = d.id)
    (hrem : findRec (st.remote.coll e.table) d.id = some r)
    (hge : ¬ SyncManager.localTime d < r.updated_at)
    (hloc : findRec (st.localdb.coll e.table) d.id = some n) :
    findRec ((SyncManager.syncToServer true now st).2.remote.coll e.table) d.id =
      some { d with updated_at := now } ∧
    (∀ qi ∈ (SyncManager.syncToServer true now st).2.localdb.sync_queue,
      ¬ qi.id = e.id) := by
  have h := @processItems_push_main now e d r n hty hdata hge
    (SyncManager.groupedOrder st.localdb.sync_queue) st []
    (mem_groupedOrder hmem)
    (fun it hit hne => huniq it (groupedOrder_sub hit) hne)
    hrem hloc
  unfold SyncManager.syncToServer
  rw [if_pos rfl]
  exact ⟨h.1, h.2.2⟩

/-- Claim C5 witness: the amended theorem applied at a concrete push state
(remote stamp 3, local time 5); the payload written keeps
`local_updated_at = some 5`. -/
theorem C5_witness :
    (¬ SyncManager.localTime wNote < (wRemote 3).updated_at ∧
      wUpd ∈ (wState 3).localdb.sync_queue) ∧
    findRec ((SyncManager.syncToServer true 9 (wState 3)).2.remote.coll Table.notes)
        "n1" = some { wNote with updated_at := 9 } ∧
    (∀ qi ∈ (SyncManager.syncToServer true 9 (wState 3)).2.localdb.sync_queue,
      ¬ qi.id = wUpd.id) := by
  refine ⟨⟨by decide, by decide⟩, ?_⟩
  exact C5_push_payload_is_full_snapshot 9 (wState 3) wUpd wNote (wRemote 3) wNote
    (by decide) (by decide) (by decide) (by decide) (by decide) (by decide) (by decide)

/-- Claim C6: during the drain, an entry whose remote operation fails (here a
`create` colliding with an existing remote row) is kept in the outbox, a
conflict pair of the entry and the error is collected, processing continues
with the remaining entries (a second create with a fresh id still lands
remotely and leaves the outbox), and the call returns `success = true`. -/
theorem C6_failed_entry_kept_others_continue
    (now : Nat) (st : SyncState) (e e2 : QueueItem) (d d2 r0 : Entity)
    (hmem : e ∈ st.localdb.sync_queue)
    (hty : e.kind = OpType.create)
    (hdata : e.data = QData.ent d)
    (huniq : ∀ it ∈ st.localdb.sync_queue, it ≠ e → ¬ it.data.dataId = d.id)
    (hqid : ∀ it ∈ st.localdb.sync_queue, it ≠ e → ¬ it.id = e.id)
    (hrem : findRec (st.remote.coll e.table) d.id = some r0)
    (hmem2 : e2 ∈ st.localdb.sync_queue)
    (hty2 : e2.kind = OpType.create)
    (hdata2 : e2.data = QData.ent d2)
    (huniq2 : ∀ it ∈ st.localdb.sync_queue, it ≠ e2 → ¬ it.data.dataId = d2.id)
    (hrem2 : findRec (st.remote.coll e2.table) d2.id = none) :
    (SyncManager.syncToServer true now st).1.success = true ∧
    e ∈ (SyncManager.syncToServer true now st).2.localdb.sync_queue ∧
    (e, "duplicate key") ∈ (SyncManager.syncToServer true now st).1.conflicts ∧
    findRec ((SyncManager.syncToServer true now st).2.remote.coll e2.table) d2.id =
      some d2 ∧
    (∀ qi ∈ (SyncManager.syncToServer true now st).2.localdb.sync_queue,
      ¬ qi.id = e2.id) := by
  have hf := @processItems_fail_create now e d r0 hty hdata
    (SyncManager.groupedOrder st.localdb.sync_queue) st []
    (fun it hit hne => huniq it (groupedOrder_sub hit) hne)
    (fun it hit hne => hqid it (groupedOrder_sub hit) hne)
    hrem hmem
  have hs := @processItems_create_ok_main now e2 d2 hty2 hdata2
    (SyncManager.groupedOrder st.localdb.sync_queue) st []
    (mem_groupedOrder hmem2)
    (fun it hit hne => huniq2 it (groupedOrder_sub hit) hne)
    hrem2
  unfold SyncManager.syncToServer
  rw [if_pos rfl]
  exact ⟨rfl, hf.1, hf.2.2.2 (mem_groupedOrder hmem), hs.1, hs.2⟩

/-- Claim C6 witness: the theorem applied at a concrete state holding one
colliding and one fresh queued create. -/
theorem C6_witness :
    (wCre1 ∈ wStateCre.localdb.sync_queue ∧ wCre2 ∈ wStateCre.localdb.sync_queue ∧
      findRec (wStateCre.remote.coll Table.notes) "n1" = some (wRemote 3) ∧
      findRec (wStateCre.remote.coll Table.notes) "n2" = none) ∧
    (SyncManager.syncToServer true 9 wStateCre).1.success = true ∧
    wCre1 ∈ (SyncManager.syncToServer true 9 wStateCre).2.localdb.sync_queue ∧
    (wCre1, "duplicate key") ∈ (SyncManager.syncToServer true 9 wStateCre).1.conflicts ∧
    findRec ((SyncManager.syncToServer true 9 wStateCre).2.remote.coll Table.notes)
        "n2" = some wNote2 ∧
    (∀ qi ∈ (SyncManager.syncToServer true 9 wStateCre).2.localdb.sync_queue,
      ¬ qi.id = wCre2.id) := by
  refine ⟨⟨by decide, by decide, by decide, by decide⟩, ?_⟩
  exact C6_failed_entry_kept_others_continue 9 wStateCre wCre1 wCre2 wNote wNote2
    (wRemote 3) (by decide) (by decide) (by decide) (by decide) (by decide)
    (by decide) (by decide) (by decide) (by decide) (by decide) (by decide)

/-! ### Collection shapes of the storage operations -/

theorem addToSyncQueue_coll (db : LocalDB) (t : Table) (ty : OpType) (d : QData)
    (now : Nat) (t2 : Table) :
    (OfflineStorage.addToSyncQueue db t ty d now).coll t2 = db.coll t2 := by
  cases t2 <;> rfl

theorem saveEntity_db_coll (t : Table) (now : Nat) (n : Entity) (db : LocalDB)
    (t2 : Table) :
    (OfflineStorage.saveEntity t now n db).2.coll t2 =
      if t2 = t then putRec (db.coll t)
        { n with local_updated_at := some now, sync_status := SyncStatus.pending }
      else db.coll t2 := by
  unfold OfflineStorage.saveEntity
  dsimp only
  rw [addToSyncQueue_coll, coll_setColl]

theorem createEntity_db_coll (t : Table) (now : Nat) (n : Entity) (db : LocalDB)
    (t2 : Table) :
    (OfflineStorage.createEntity t now n db).2.coll t2 =
      if t2 = t then putRec (db.coll t)
        { n with local_updated_at := some now, sync_status := SyncStatus.pending }
      else db.coll t2 := by
  unfold OfflineStorage.createEntity
  dsimp only
  rw [addToSyncQueue_coll, coll_setColl]

/-! ### Bulk server write lemmas -/

theorem bulk_find_not_mem {j : String} :
    ∀ (items l : List Entity), (∀ i ∈ items, ¬ i.id = j) →
    findRec (items.foldl
      (fun l2 i => putRec l2 { i with sync_status := SyncStatus.synced }) l) j =
      findRec l j := by
  intro items
  induction items with
  | nil => intro l _; rfl
  | cons a rest ih =>
      intro l h
      rw [List.foldl_cons, ih _ (fun i hi => h i (List.mem_cons_of_mem _ hi))]
      exact findRec_putRec_ne
        (fun hc => h a (List.mem_cons_self a rest) hc.symm)

theorem bulk_find_mem {r : Entity} :
    ∀ (items l : List Entity),
    (items.map Entity.id).Nodup → r ∈ items →
    findRec (items.foldl
      (fun l2 i => putRec l2 { i with sync_status := SyncStatus.synced }) l) r.id =
      some { r with sync_status := SyncStatus.synced } := by
  intro items
  induction items with
  | nil => intro l _ h; simp at h
  | cons a rest ih =>
      intro l hnd hr
      rw [List.foldl_cons]
      by_cases hra : r = a
      · subst hra
        have h2 : (∀ x ∈ rest, ¬ x.id = r.id) ∧ (rest.map Entity.id).Nodup := by
          simpa using hnd
        rw [bulk_find_not_mem _ _ h2.1]
        exact findRec_putRec_self
      · have hr2 : r ∈ rest := by
          rcases List.mem_cons.mp hr with h | h
          · exact absurd h hra
          · exact h
        have h2 : (∀ x ∈ rest, ¬ x.id = a.id) ∧ (rest.map Entity.id).Nodup := by
          simpa using hnd
        exact ih _ h2.2 hr2

theorem mem_bulk_fold {e : Entity} :
    ∀ (items l : List Entity),
    e ∈ items.foldl
      (fun l2 i => putRec l2 { i with sync_status := SyncStatus.synced }) l →
    e ∈ l ∨ ∃ i ∈ items, e = { i with sync_status := SyncStatus.synced } := by
  intro items
  induction items with
  | nil => intro l h; exact Or.inl h
  | cons a rest ih =>
      intro l h
      rw [List.foldl_cons] at h
      rcases ih _ h with h2 | ⟨i, hi, he⟩
      · rcases mem_putRec.mp h2 with ⟨hl, _⟩ | he
        · exact Or.inl hl
        · exact Or.inr ⟨a, List.mem_cons_self a rest, he⟩
      · exact Or.inr ⟨i, List.mem_cons_of_mem _ hi, he⟩

theorem syncFromServer_coll (uid : String) (st : SyncState) (t : Table) :
    (SyncManager.syncFromServer true uid st).localdb.coll t =
      ((st.remote.coll t).filter (fun e => e.user_id = uid)).foldl
        (fun l2 i => putRec l2 { i with sync_status := SyncStatus.synced })
        (st.localdb.coll t) := by
  unfold SyncManager.syncFromServer OfflineStorage.bulkUpdateFromServer
  rw [if_pos rfl]
  dsimp only
  cases t with
  | notes =>
      rw [coll_setColl, if_neg (by decide), coll_setColl, if_pos rfl]
      rfl
  | notebooks =>
      rw [coll_setColl, if_pos rfl, coll_setColl, if_neg (by decide)]
      rfl

/-- Claim C3 (code bug exhibit): an online repository create whose remote
insert succeeds does return the created entity and does write it remotely,
but the entity persisted in the local store has `sync_status = pending` with
a `local_updated_at` — `saveNote` unconditionally overwrites the
`sync_status: 'synced'` spread it is handed, against the code's own
"Save to local storage as synced" path — so the claimed persisted `synced`
status does not hold. -/
theorem C3_online_create_persists_pending :
    (UseOfflineNotes.createNote true true "u1" 4 "n9"
        (Fields.note "t" none none false) emptyState).1.map Entity.id = some "n9" ∧
    (UseOfflineNotes.createNote true true "u1" 4 "n9"
        (Fields.note "t" none none false) emptyState).2.remote.notes.length = 1 ∧
    (findRec (UseOfflineNotes.createNote true true "u1" 4 "n9"
        (Fields.note "t" none none false) emptyState).2.localdb.notes "n9").map
      Entity.sync_status = some SyncStatus.pending ∧
    (findRec (UseOfflineNotes.createNote true true "u1" 4 "n9"
        (Fields.note "t" none none false) emptyState).2.localdb.notes "n9").map
      Entity.local_updated_at = some (some 4) ∧
    ¬ SyncStatus.pending = SyncStatus.synced := by decide

/-- Claim C4 (code bug exhibit): mutations that complete successfully
against the remote store while online still append outbox entries — the
successful online create appends an `update` entry (through `saveNote`) and
the successful online delete appends a `delete` entry (through
`offlineStorage.deleteNote`) — so outbox entries do not arise only from
offline or failed paths. -/
theorem C4_online_success_still_enqueues :
    (UseOfflineNotes.createNote true true "u1" 4 "n9"
        (Fields.note "t" none none false) emptyState).2.localdb.sync_queue.map
      QueueItem.kind = [OpType.update] ∧
    (UseOfflineNotes.deleteNote true true 6 "n1" wStateDel).remote.notes = [] ∧
    (UseOfflineNotes.deleteNote true true 6 "n1"
        wStateDel).localdb.sync_queue.map QueueItem.kind = [OpType.delete] := by
  decide

/-- Claim C7 counterexample: a pull with zero local pending changes need not
leave the local store mirroring the remote records: a synced local note
whose id is absent from the (empty) remote store is retained. -/
theorem C7_counterexample :
    wStale.sync_status = SyncStatus.synced ∧
    wStatePullEmpty.remote.notes = [] ∧
    (SyncManager.syncFromServer true "u1" wStatePullEmpty).localdb.notes =
      [wStale] ∧
    ¬ ([wStale] : List Entity) = [] := by decide

/-- Claim C7 (amended): after a pull, every remote record owned by the owner
is stored locally with `sync_status = synced` (and no `local_updated_at`,
the remote row carrying none), while local records whose ids do not occur
among the owner's remote records are retained unchanged — the local store is
an upsert target, not an exact mirror. -/
theorem C7_pull_upserts_but_never_deletes
    (uid : String) (st : SyncState) (t : Table) (r : Entity)
    (hnd : (((st.remote.coll t).filter (fun e => e.user_id = uid)).map
      Entity.id).Nodup)
    (hr : r ∈ st.remote.coll t) (hu : r.user_id = uid)
    (hclean : r.local_updated_at = none) :
    (findRec ((SyncManager.syncFromServer true uid st).localdb.coll t) r.id =
      some { r with sync_status := SyncStatus.synced } ∧
     ({ r with sync_status := SyncStatus.synced } : Entity).local_updated_at = none) ∧
    (∀ j : String, (∀ x ∈ st.remote.coll t, x.user_id = uid → ¬ x.id = j) →
      findRec ((SyncManager.syncFromServer true uid st).localdb.coll t) j =
        findRec (st.localdb.coll t) j) := by
  refine ⟨⟨?_, by simpa using hclean⟩, ?_⟩
  · rw [syncFromServer_coll]
    exact bulk_find_mem _ _ hnd (List.mem_filter.mpr ⟨hr, by simp [hu]⟩)
  · intro j hj
    rw [syncFromServer_coll]
    apply bulk_find_not_mem
    intro i hi
    rcases List.mem_filter.mp hi with ⟨hi1, hi2⟩
    exact hj i hi1 (by simpa using hi2)

/-- Claim C7 witness: the amended theorem applied at a state with one owned
remote row and one stale local row; the pull lands the remote row synced and
keeps the stale row. -/
theorem C7_witness :
    (wRemote 6 ∈ wStatePull.remote.coll Table.notes ∧
      (wRemote 6).local_updated_at = none) ∧
    (findRec ((SyncManager.syncFromServer true "u1"
        wStatePull).localdb.coll Table.notes) "n1" =
      some { (wRemote 6) with sync_status := SyncStatus.synced } ∧
     ({ (wRemote 6) with sync_status := SyncStatus.synced } : Entity).local_updated_at = none) ∧
    findRec ((SyncManager.syncFromServer true "u1"
        wStatePull).localdb.coll Table.notes) "n9" =
      findRec (wStatePull.localdb.coll Table.notes) "n9" := by
  refine ⟨⟨by decide, by decide⟩, ?_⟩
  have h := C7_pull_upserts_but_never_deletes "u1" wStatePull Table.notes
    (wRemote 6) (by decide) (by decide) (by decide) (by decide)
  exact ⟨h.1, h.2 "n9" (by decide)⟩

/-- Claim C9 counterexample: two offline saves of the same note (title "A"
at instant 1, then "B" at 2) do enqueue two update entries, but draining at
instant 10 leaves the REMOTE row holding the FIRST payload "A", not the
final payload: the first push freshens the remote stamp to 10, so the
second entry is skipped by the conflict check. -/
theorem C9_counterexample :
    wDbTwoEdits.sync_queue.length = 2 ∧
    (findRec ((SyncManager.syncToServer true 10 wStateTwoEdits).2.remote.coll
        Table.notes) "n1").map Entity.fields =
      some (Fields.note "A" none none false) ∧
    ¬ (findRec ((SyncManager.syncToServer true 10 wStateTwoEdits).2.remote.coll
        Table.notes) "n1").map Entity.fields =
      some (Fields.note "B" none none false) ∧
    (SyncManager.syncToServer true 10 wStateTwoEdits).2.localdb.sync_queue = [] ∧
    (findRec ((SyncManager.syncToServer true 10 wStateTwoEdits).2.localdb.coll
        Table.notes) "n1").map Entity.sync_status = some SyncStatus.synced := by
  decide

/-- Claim C10: every `refreshNote` call returns null and leaves the local
store untouched, even when the remote fetch succeeds: the local-update step
calls `offlineStorage.updateNoteDirectly`, a method the `OfflineStorage`
class does not define, so the step throws and the surrounding catch returns
null. -/
theorem C10_refreshNote_always_null (ready online : Bool)
    (userId noteId : String) (st : SyncState) :
    UseOfflineNotes.refreshNote ready online userId noteId st = (none, st) := by
  unfold UseOfflineNotes.refreshNote
  cases hc : (ready && online) with
  | false => rw [if_neg (by decide)]
  | true =>
      rw [if_pos rfl]
      cases (st.remote.notes.filter
          (fun e => e.id = noteId ∧ e.user_id = userId)).head? with
      | none => rfl
      | some data =>
          dsimp only
          rw [if_neg (by decide)]

/-! ### The bookkeeping invariant of the local store -/

theorem bulkUpdateFromServer_coll (t : Table) (items : List Entity)
    (db : LocalDB) (t2 : Table) :
    (OfflineStorage.bulkUpdateFromServer t items db).coll t2 =
      if t2 = t then items.foldl
        (fun l2 i => putRec l2 { i with sync_status := SyncStatus.synced })
        (db.coll t) else db.coll t2 := by
  unfold OfflineStorage.bulkUpdateFromServer
  rw [coll_setColl]

theorem applyOp_inv {db : LocalDB} {lm : Table → String → Option Nat}
    (hinv : dbInv db lm) {op : StoreOp} (hwf : opWF op) :
    dbInv (applyOp db op) (lastMutUpd op lm) := by
  cases op with
  | save t now n =>
      intro t2 e he
      rw [show applyOp db (StoreOp.save t now n) =
        (OfflineStorage.saveEntity t now n db).2 from rfl,
        saveEntity_db_coll] at he
      by_cases ht : t2 = t
      · subst ht
        rw [if_pos rfl] at he
        rcases mem_putRec.mp he with ⟨hmem, hne⟩ | rfl
        · have hne2 : ¬ e.id = n.id := by simpa using hne
          have h0 := hinv t2 e hmem
          simp only [entityInv, lastMutUpd] at h0 ⊢
          rw [if_neg (fun hc => hne2 hc.2)]
          exact h0
        · simp only [entityInv, lastMutUpd]
          refine ⟨fun h => by simp at h, fun _ => ⟨?_, rfl⟩⟩
          rw [if_pos (by simp)]
      · rw [if_neg ht] at he
        have h0 := hinv t2 e he
        simp only [entityInv, lastMutUpd] at h0 ⊢
        rw [if_neg (fun hc => ht hc.1)]
        exact h0
  | mk_create t now n =>
      intro t2 e he
      rw [show applyOp db (StoreOp.mk_create t now n) =
        (OfflineStorage.createEntity t now n db).2 from rfl,
        createEntity_db_coll] at he
      by_cases ht : t2 = t
      · subst ht
        rw [if_pos rfl] at he
        rcases mem_putRec.mp he with ⟨hmem, hne⟩ | rfl
        · have hne2 : ¬ e.id = n.id := by simpa using hne
          have h0 := hinv t2 e hmem
          simp only [entityInv, lastMutUpd] at h0 ⊢
          rw [if_neg (fun hc => hne2 hc.2)]
          exact h0
        · simp only [entityInv, lastMutUpd]
          refine ⟨fun h => by simp at h, fun _ => ⟨?_, rfl⟩⟩
          rw [if_pos (by simp)]
      · rw [if_neg ht] at he
        have h0 := hinv t2 e he
        simp only [entityInv, lastMutUpd] at h0 ⊢
        rw [if_neg (fun hc => ht hc.1)]
        exact h0
  | del t now i =>
      intro t2 e he
      rw [show applyOp db (StoreOp.del t now i) =
        OfflineStorage.deleteEntity t now i db from rfl] at he
      unfold OfflineStorage.deleteEntity at he
      cases hf : findRec (db.coll t) i with
      | none =>
          rw [hf] at he
          exact hinv t2 e he
      | some e0 =>
          rw [hf] at he
          dsimp only at he
          rw [addToSyncQueue_coll, coll_setColl] at he
          by_cases ht : t2 = t
          · subst ht
            rw [if_pos rfl] at he
            exact hinv t2 e (List.mem_filter.mp he).1
          · rw [if_neg ht] at he
            exact hinv t2 e he
  | mark t i =>
      intro t2 e he
      rw [show applyOp db (StoreOp.mark t i) =
        OfflineStorage.markAsSynced t i db from rfl] at he
      unfold OfflineStorage.markAsSynced at he
      cases hf : findRec (db.coll t) i with
      | none =>
          rw [hf] at he
          exact hinv t2 e he
      | some e0 =>
          rw [hf] at he
          dsimp only at he
          rw [coll_setColl] at he
          by_cases ht : t2 = t
          · subst ht
            rw [if_pos rfl] at he
            rcases mem_putRec.mp he with ⟨hmem, _⟩ | rfl
            · exact hinv t2 e hmem
            · exact ⟨fun _ => rfl, fun h => by simp at h⟩
          · rw [if_neg ht] at he
            exact hinv t2 e he
  | bulk t items =>
      intro t2 e he
      rw [show applyOp db (StoreOp.bulk t items) =
        OfflineStorage.bulkUpdateFromServer t items db from rfl,
        bulkUpdateFromServer_coll] at he
      by_cases ht : t2 = t
      · subst ht
        rw [if_pos rfl] at he
        rcases mem_bulk_fold _ _ he with hmem | ⟨i, hi, rfl⟩
        · exact hinv t2 e hmem
        · refine ⟨fun _ => ?_, fun h => by simp at h⟩
          have : i.local_updated_at = none := hwf i hi
          simpa using this
      · rw [if_neg ht] at he
        exact hinv t2 e he

theorem runOps_inv :
    ∀ (ops : List StoreOp) (db : LocalDB) (lm : Table → String → Option Nat),
    dbInv db lm → (∀ op ∈ ops, opWF op) →
    dbInv (runOps db ops) (ops.foldl (fun lm2 op => lastMutUpd op lm2) lm) := by
  intro ops
  induction ops with
  | nil => intro db lm h _; exact h
  | cons op rest ih =>
      intro db lm h hwf
      rw [runOps, List.foldl_cons, List.foldl_cons]
      exact ih (applyOp db op) (lastMutUpd op lm)
        (applyOp_inv h (hwf op (List.mem_cons_self op rest)))
        (fun o ho => hwf o (List.mem_cons_of_mem op ho))

/-- Claim C8: in every local store reachable from the empty store through
the OfflineStorage operations (save/create/delete of notes and notebooks,
markAsSynced, bulkUpdateFromServer fed server rows — which carry no
`local_updated_at`), every stored entity with `sync_status = synced` has no
`local_updated_at`, and every entity with `sync_status = pending` carries a
`local_updated_at` equal to the instant of its most recent local mutation. -/
theorem C8_bookkeeping_invariant (ops : List StoreOp)
    (hwf : ∀ op ∈ ops, opWF op) :
    ∀ t, ∀ e ∈ (runOps emptyDB ops).coll t,
      (e.sync_status = SyncStatus.synced → e.local_updated_at = none) ∧
      (e.sync_status = SyncStatus.pending →
        e.local_updated_at = lastMut ops t e.id ∧ e.local_updated_at.isSome) := by
  have hbase : dbInv emptyDB (fun _ _ => none) := by
    intro t e he
    cases t <;> simp [emptyDB, LocalDB.coll] at he
  exact runOps_inv ops emptyDB (fun _ _ => none) hbase hwf

/-- Claim C8 witness: the invariant applied to a concrete history — create,
mark synced, save again, then a bulk server write of notebooks. -/
theorem C8_witness :
    (∀ op ∈ wOps, opWF op) ∧
    (∀ t, ∀ e ∈ (runOps emptyDB wOps).coll t,
      (e.sync_status = SyncStatus.synced → e.local_updated_at = none) ∧
      (e.sync_status = SyncStatus.pending →
        e.local_updated_at = lastMut wOps t e.id ∧ e.local_updated_at.isSome)) :=
  ⟨by decide, C8_bookkeeping_invariant wOps (by decide)⟩

/-! ### Two successive offline saves and their drain -/

theorem saveNote_queue (ts : Nat) (m : Entity) (db : LocalDB) :
    (OfflineStorage.saveNote ts m db).2.sync_queue =
      putQueue db.sync_queue (updEntry ts m) := rfl

theorem saveNote_notes (ts : Nat) (m : Entity) (db : LocalDB) :
    (OfflineStorage.saveNote ts m db).2.notes =
      putRec db.notes (savedRec ts m) := rfl

theorem twoUpdates_drain (now t1 t2 : Nat) (b r0 : Entity) (f1 f2 : Fields)
    (db2 : LocalDB) (hr0 : r0.id = b.id)
    (h01 : r0.updated_at ≤ t1) (h12 : t1 < t2) (h2n : t2 < now)
    (hq2 : db2.sync_queue =
      [updEntry t1 { b with fields := f1 }, updEntry t2 { b with fields := f2 }])
    (hnotes : findRec (db2.coll Table.notes) b.id =
      some (savedRec t2 { b with fields := f2 })) :
    findRec ((SyncManager.processItems now
        [updEntry t1 { b with fields := f1 }, updEntry t2 { b with fields := f2 }]
        { localdb := db2, remote := { notes := [r0], notebooks := [] } }
        []).1.remote.coll Table.notes) b.id =
      some { savedRec t1 { b with fields := f1 } with updated_at := now } ∧
    (SyncManager.processItems now
        [updEntry t1 { b with fields := f1 }, updEntry t2 { b with fields := f2 }]
        { localdb := db2, remote := { notes := [r0], notebooks := [] } }
        []).1.localdb.sync_queue = [] ∧
    findRec ((SyncManager.processItems now
        [updEntry t1 { b with fields := f1 }, updEntry t2 { b with fields := f2 }]
        { localdb := db2, remote := { notes := [r0], notebooks := [] } }
        []).1.localdb.coll Table.notes) b.id =
      some { savedRec t2 { b with fields := f2 } with
        sync_status := SyncStatus.synced, local_updated_at := none } := by
  have hrem1 : findRec ([r0] : List Entity) b.id = some r0 := by
    rw [findRec, if_pos hr0]
  have hge1 : ¬ SyncManager.localTime (savedRec t1 { b with fields := f1 }) <
      r0.updated_at := by
    simp only [SyncManager.localTime, savedRec, Option.getD_some]
    omega
  have hpo1 : SyncManager.processOperation now
      (updEntry t1 { b with fields := f1 }).table
      (updEntry t1 { b with fields := f1 }).kind
      (updEntry t1 { b with fields := f1 }).data
      (({ notes := [r0], notebooks := [] } : RemoteDB)) =
      Except.ok (remoteUpdate ({ notes := [r0], notebooks := [] } : RemoteDB)
        Table.notes (savedRec t1 { b with fields := f1 }).id
        { savedRec t1 { b with fields := f1 } with updated_at := now }) := by
    show SyncManager.processOperation now Table.notes OpType.update
      (QData.ent (savedRec t1 { b with fields := f1 }))
      ({ notes := [r0], notebooks := [] } : RemoteDB) = _
    exact processOperation_update_push hrem1 hge1
  have hrem2 : findRec ((remoteUpdate
      ({ notes := [r0], notebooks := [] } : RemoteDB) Table.notes
      (savedRec t1 { b with fields := f1 }).id
      { savedRec t1 { b with fields := f1 } with updated_at := now }).coll
      Table.notes) b.id =
      some { savedRec t1 { b with fields := f1 } with updated_at := now } := by
    unfold remoteUpdate
    rw [rcoll_setColl, if_pos rfl]
    exact findRec_mapUpd_some rfl hrem1
  have hlt2 : SyncManager.localTime (savedRec t2 { b with fields := f2 }) <
      ({ savedRec t1 { b with fields := f1 } with
        updated_at := now } : Entity).updated_at := by
    simp only [SyncManager.localTime, savedRec, Option.getD_some]
    omega
  have hpo2 : SyncManager.processOperation now
      (updEntry t2 { b with fields := f2 }).table
      (updEntry t2 { b with fields := f2 }).kind
      (updEntry t2 { b with fields := f2 }).data
      (remoteUpdate ({ notes := [r0], notebooks := [] } : RemoteDB) Table.notes
        (savedRec t1 { b with fields := f1 }).id
        { savedRec t1 { b with fields := f1 } with updated_at := now }) =
      Except.ok (remoteUpdate ({ notes := [r0], notebooks := [] } : RemoteDB)
        Table.notes (savedRec t1 { b with fields := f1 }).id
        { savedRec t1 { b with fields := f1 } with updated_at := now }) := by
    show SyncManager.processOperation now Table.notes OpType.update
      (QData.ent (savedRec t2 { b with fields := f2 })) _ = _
    exact processOperation_update_skip hrem2 hlt2
  rw [SyncManager.processItems, stepItem_ok_eq hpo1]
  dsimp only
  rw [SyncManager.processItems, stepItem_ok_eq hpo2]
  dsimp only
  rw [SyncManager.processItems]
  refine ⟨hrem2, ?_, ?_⟩
  · rw [markAsSynced_sync_queue, removeSyncQueueItem_sync_queue,
      markAsSynced_sync_queue, removeSyncQueueItem_sync_queue, hq2]
    have hne21 : ¬ (updEntry t2 { b with fields := f2 }).id =
        (updEntry t1 { b with fields := f1 }).id := by
      simp only [updEntry, QKey.mk.injEq]
      intro hc
      omega
    simp [hne21]
  · have hfind1 : findRec ((OfflineStorage.removeSyncQueueItem
        (updEntry t1 { b with fields := f1 }).id db2).coll Table.notes) b.id =
        some (savedRec t2 { b with fields := f2 }) := by
      rw [removeSyncQueueItem_coll]
      exact hnotes
    have hmark1 := markAsSynced_find_self hfind1
    have hfind2 : findRec ((OfflineStorage.removeSyncQueueItem
        (updEntry t2 { b with fields := f2 }).id
        (OfflineStorage.markAsSynced Table.notes b.id
          (OfflineStorage.removeSyncQueueItem
            (updEntry t1 { b with fields := f1 }).id db2))).coll Table.notes)
        b.id = some { savedRec t2 { b with fields := f2 } with
          sync_status := SyncStatus.synced, local_updated_at := none } := by
      rw [removeSyncQueueItem_coll]
      exact hmark1
    have hmark2 := markAsSynced_find_self hfind2
    rw [marked_fixed rfl rfl] at hmark2
    exact hmark2

/-- Claim C9 (amended): two successive offline saves of the same note at
distinct instants `t1 < t2` enqueue two distinct outbox `update` entries for
that id (pending mutations are not collapsed); but a later drain (at an
instant past `t2`, the remote row not newer than the first edit) pushes the
FIRST payload, stamping the remote `updated_at` with the drain instant, and
then skips the second entry because the fresh remote stamp now exceeds its
local time.  The outbox drains empty and the local note is marked synced,
but the remote record holds the first payload, not the final one. -/
theorem C9_two_offline_saves (b r0 : Entity) (f1 f2 : Fields)
    (ln lb : List Entity) (t1 t2 now : Nat) (hr0 : r0.id = b.id)
    (h01 : r0.updated_at ≤ t1) (h12 : t1 < t2) (h2n : t2 < now) :
    (twoSaves t1 t2 { b with fields := f1 } { b with fields := f2 }
        { notes := ln, notebooks := lb, sync_queue := [] }).sync_queue =
      [updEntry t1 { b with fields := f1 }, updEntry t2 { b with fields := f2 }] ∧
    findRec ((SyncManager.syncToServer true now
        { localdb := twoSaves t1 t2 { b with fields := f1 } { b with fields := f2 } { notes := ln, notebooks := lb, sync_queue := [] },
          remote := { notes := [r0], notebooks := [] } }).2.remote.coll
        Table.notes) b.id =
      some { savedRec t1 { b with fields := f1 } with updated_at := now } ∧
    (SyncManager.syncToServer true now
        { localdb := twoSaves t1 t2 { b with fields := f1 } { b with fields := f2 } { notes := ln, notebooks := lb, sync_queue := [] },
          remote := { notes := [r0], notebooks := [] } }).2.localdb.sync_queue = [] ∧
    findRec ((SyncManager.syncToServer true now
        { localdb := twoSaves t1 t2 { b with fields := f1 } { b with fields := f2 } { notes := ln, notebooks := lb, sync_queue := [] },
          remote := { notes := [r0], notebooks := [] } }).2.localdb.coll
        Table.notes) b.id =
      some { savedRec t2 { b with fields := f2 } with
        sync_status := SyncStatus.synced, local_updated_at := none } := by
  have hne12 : ¬ (updEntry t1 { b with fields := f1 }).id =
      (updEntry t2 { b with fields := f2 }).id := by
    simp only [updEntry, QKey.mk.injEq]
    intro hc
    omega
  have hq : (twoSaves t1 t2 { b with fields := f1 } { b with fields := f2 }
      { notes := ln, notebooks := lb, sync_queue := [] }).sync_queue =
      [updEntry t1 { b with fields := f1 },
        updEntry t2 { b with fields := f2 }] := by
    rw [twoSaves, saveNote_queue, saveNote_queue]
    simp [putQueue, hne12]
  have hnotes2 : findRec ((twoSaves t1 t2 { b with fields := f1 }
      { b with fields := f2 }
      { notes := ln, notebooks := lb, sync_queue := [] }).coll Table.notes)
      b.id = some (savedRec t2 { b with fields := f2 }) := by
    show findRec (twoSaves t1 t2 { b with fields := f1 } { b with fields := f2 }
      { notes := ln, notebooks := lb, sync_queue := [] }).notes b.id = _
    rw [twoSaves, saveNote_notes, saveNote_notes]
    exact findRec_putRec_self
  have hgo : SyncManager.groupedOrder [updEntry t1 { b with fields := f1 },
      updEntry t2 { b with fields := f2 }] =
      [updEntry t1 { b with fields := f1 },
        updEntry t2 { b with fields := f2 }] := by
    simp [SyncManager.groupedOrder, SyncManager.groupKeys, SyncManager.qkeyOf,
      updEntry]
  have hall := twoUpdates_drain now t1 t2 b r0 f1 f2
    (twoSaves t1 t2 { b with fields := f1 } { b with fields := f2 }
      { notes := ln, notebooks := lb, sync_queue := [] })
    hr0 h01 h12 h2n hq hnotes2
  refine ⟨hq, ?_, ?_, ?_⟩
  · unfold SyncManager.syncToServer
    rw [if_pos rfl]
    dsimp only
    rw [hq, hgo]
    exact hall.1
  · unfold SyncManager.syncToServer
    rw [if_pos rfl]
    dsimp only
    rw [hq, hgo]
    exact hall.2.1
  · unfold SyncManager.syncToServer
    rw [if_pos rfl]
    dsimp only
    rw [hq, hgo]
    exact hall.2.2

/-- Claim C9 witness: the amended theorem applied at concrete instants 1, 2
and a drain at 10 over a base row stamped 0. -/
theorem C9_witness :
    ((wBase).id = (wBase).id ∧ (wBase).updated_at ≤ 1 ∧ (1 : Nat) < 2 ∧ (2 : Nat) < 10) ∧
    ((twoSaves 1 2 { wBase with fields := Fields.note "A" none none false }
        { wBase with fields := Fields.note "B" none none false }
        { notes := [wBase], notebooks := [], sync_queue := [] }).sync_queue =
      [updEntry 1 { wBase with fields := Fields.note "A" none none false },
        updEntry 2 { wBase with fields := Fields.note "B" none none false }] ∧
    findRec ((SyncManager.syncToServer true 10
        { localdb := twoSaves 1 2 { wBase with fields := Fields.note "A" none none false } { wBase with fields := Fields.note "B" none none false } { notes := [wBase], notebooks := [], sync_queue := [] },
          remote := { notes := [wBase], notebooks := [] } }).2.remote.coll
        Table.notes) (wBase).id =
      some { savedRec 1 { wBase with fields := Fields.note "A" none none false } with updated_at := 10 } ∧
    (SyncManager.syncToServer true 10
        { localdb := twoSaves 1 2 { wBase with fields := Fields.note "A" none none false } { wBase with fields := Fields.note "B" none none false } { notes := [wBase], notebooks := [], sync_queue := [] },
          remote := { notes := [wBase], notebooks := [] } }).2.localdb.sync_queue = [] ∧
    findRec ((SyncManager.syncToServer true 10
        { localdb := twoSaves 1 2 { wBase with fields := Fields.note "A" none none false } { wBase with fields := Fields.note "B" none none false } { notes := [wBase], notebooks := [], sync_queue := [] },
          remote := { notes := [wBase], notebooks := [] } }).2.localdb.coll
        Table.notes) (wBase).id =
      some { savedRec 2 { wBase with fields := Fields.note "B" none none false } with
        sync_status := SyncStatus.synced, local_updated_at := none }) := by
  refine ⟨⟨rfl, by decide, by decide, by decide⟩, ?_⟩
  exact C9_two_offline_saves wBase wBase (Fields.note "A" none none false)
    (Fields.note "B" none none false) [wBase] [] 1 2 10 rfl (by decide)
    (by decide) (by decide)



end BrightScribe
